import Mathlib

/-!
# Verification of the response-normalization core of `app/api/analyze/route.js`

This file gives a shallow embedding of the normalization logic of the
analyze route: the JSON extractor (`safeParseJSON`), the shape coercions
(`toArrayStrings`, the inline general-plan coercion), the two normalizers
(`normalizeAi`, `normalizeBehavior`), the suggestion normalizer
(`ensureSuggestionObjects`) and the response-envelope confidence
computation, and proves or refutes the behavioural claims of the spec.

JavaScript strings are modelled as lists of characters (`Str`), JSON
values as the inductive type `JSON` (numbers as exact rationals; the
binary floating point representation of JavaScript is not modelled, which
only matters for precision corner cases none of the claims touch).
`Option JSON` models a JavaScript value that may be `undefined`
(`none` = `undefined`).
-/

/-- JavaScript strings, modelled as lists of characters. -/
abbrev Str := List Char

/-- A JSON value as produced by `JSON.parse` / handled by the route code.
Object fields are kept in insertion order (the enumeration order of
`Object.values` for the non-numeric keys this code works with). -/
inductive JSON where
  | null : JSON
  | bool (b : Bool) : JSON
  | num (q : Rat) : JSON
  | str (s : Str) : JSON
  | arr (elems : List JSON) : JSON
  | obj (fields : List (Str × JSON)) : JSON
deriving Repr

/-- JavaScript truthiness of a defined value (`NaN` is not modelled). -/
def jsTruthy : JSON → Bool
  | .null => false
  | .bool b => b
  | .num q => q != 0
  | .str s => s != []
  | .arr _ => true
  | .obj _ => true

/-- Truthiness of a possibly-`undefined` value. -/
def jsTruthyO : Option JSON → Bool
  | none => false
  | some v => jsTruthy v

/-- `a || b` of JavaScript: the first operand when truthy, else the second. -/
def jsOr (a b : Option JSON) : Option JSON :=
  if jsTruthyO a then a else b

/-- `a && b` of JavaScript: the second operand when the first is truthy,
else the first. -/
def jsAnd (a b : Option JSON) : Option JSON :=
  if jsTruthyO a then b else a

/-- Field lookup in an object field list (first match; the JSON parser
below collapses duplicate keys, so at most one match exists). -/
def getField (fields : List (Str × JSON)) (k : Str) : Option JSON :=
  (fields.find? (fun p => p.1 == k)).map (·.2)

/-- Property access `v.k` on an arbitrary JavaScript value: `undefined`
unless `v` is an object with field `k` (named properties of primitives
and arrays are not used by the route code). -/
def jget (v : JSON) (k : Str) : Option JSON :=
  match v with
  | .obj fields => getField fields k
  | _ => none

/-- Property access with a `String` literal key. -/
def jgetS (v : JSON) (k : String) : Option JSON := jget v k.data

/-- Optional chaining `o?.k`: `undefined` when `o` is nullish, else the
property access (which is itself `undefined` on non-objects). -/
def jchain (o : Option JSON) (k : String) : Option JSON :=
  match o with
  | none => none
  | some .null => none
  | some v => jgetS v k

/-! ## Character classes and basic string operations -/

/-- Whitespace for `String.prototype.trim` (WhiteSpace and LineTerminator
code points of the ECMAScript spec). -/
def jsIsWs (c : Char) : Bool :=
  c.toNat ∈ [0x9, 0xa, 0xb, 0xc, 0xd, 0x20, 0xa0, 0x1680,
    0x2000, 0x2001, 0x2002, 0x2003, 0x2004, 0x2005, 0x2006, 0x2007,
    0x2008, 0x2009, 0x200a, 0x2028, 0x2029, 0x202f, 0x205f, 0x3000, 0xfeff]

/-- `s.trim()`: strip leading and trailing whitespace. -/
def trim (s : Str) : Str :=
  ((s.dropWhile jsIsWs).reverse.dropWhile jsIsWs).reverse

/-- Split a list at every character satisfying `p` (the separators are
dropped; empty pieces between adjacent separators are kept, mirroring
`String.prototype.split` with a single-character alternative). -/
def splitOnChar (p : Char → Bool) : Str → List Str
  | [] => [[]]
  | c :: cs =>
    match splitOnChar p cs with
    | [] => [[]]
    | h :: t => if p c then [] :: h :: t else (c :: h) :: t

/-- The sentence separators of `normalizeBehavior`:
the class of `/[\.\?\!\;\n]+/`. -/
def isSentSep (c : Char) : Bool :=
  c.toNat ∈ [0x2e, 0x3f, 0x21, 0x3b, 0xa]

/-- `splitSentences` of `normalizeBehavior` applied to a (non-null)
string: split at `. ? ! ;` and newline, trim each piece, drop empties.
The JS regex splits on *runs* of separators; splitting at each single
separator yields extra empty pieces that the `filter(Boolean)` removes,
so the result is identical. -/
def splitSentences (s : Str) : List Str :=
  ((splitOnChar isSentSep s).map trim).filter (fun p => p ≠ [])

/-- `splitSentences` as called on an arbitrary JavaScript value: the
function guards `if (!text || typeof text !== 'string') return []`. -/
def splitSentencesJS : Option JSON → List Str
  | some (.str s) => if s = [] then [] else splitSentences s
  | _ => []

/-- The ASCII case-mapping table of the per-character lowercasing that
stands in for `String.prototype.toLowerCase` (the Arabic keyword material
is caseless and unaffected, matching the JavaScript behaviour on all
inputs the claims concern). -/
def lowerTable : List (Char × Char) :=
  [('A', 'a'), ('B', 'b'), ('C', 'c'), ('D', 'd'), ('E', 'e'), ('F', 'f'),
   ('G', 'g'), ('H', 'h'), ('I', 'i'), ('J', 'j'), ('K', 'k'), ('L', 'l'),
   ('M', 'm'), ('N', 'n'), ('O', 'o'), ('P', 'p'), ('Q', 'q'), ('R', 'r'),
   ('S', 's'), ('T', 't'), ('U', 'u'), ('V', 'v'), ('W', 'w'), ('X', 'x'),
   ('Y', 'y'), ('Z', 'z')]

def toLowerCh (c : Char) : Char :=
  match lowerTable.find? (fun p => p.1 == c) with
  | some p => p.2
  | none => c

/-- Lowercase a string character by character. -/
def lowerStr (s : Str) : Str := s.map toLowerCh

/-- `containsKeyword` of `normalizeBehavior`: lowercase the sentence and
test whether some keyword occurs in it as a substring
(`low.includes(k)` is occurrence of `k` as a contiguous run in `low`). -/
def containsKeyword (s : Str) (keywords : List Str) : Bool :=
  if s = [] then false
  else keywords.any (fun k => decide (k <:+: lowerStr s))

/-- The antecedent keyword list of `normalizeBehavior`. -/
def antecedentKeywords : List Str :=
  ["قبل", "عند", "أثناء", "مسبق", "سابقاً", "قبل السلوك"].map String.data

/-- The consequence keyword list of `normalizeBehavior`. -/
def consequenceKeywords : List Str :=
  ["بعد", "عقب", "ينتج", "نتيجة", "يحصل", "يحصل على", "يؤدي إلى", "ثم"].map String.data

/-! ## Stringification and string collection over JSON trees -/

/-- The character of one decimal digit. -/
def digitCh : Nat → Char
  | 0 => '0' | 1 => '1' | 2 => '2' | 3 => '3' | 4 => '4'
  | 5 => '5' | 6 => '6' | 7 => '7' | 8 => '8' | _ => '9'

/-- Decimal digits, most significant first (the fuel always suffices
because a number has fewer digits than its own successor). -/
def natToStrAux : Nat → Nat → Str
  | 0, _ => []
  | fuel + 1, n => if n < 10 then [digitCh n] else natToStrAux fuel (n / 10) ++ [digitCh (n % 10)]

/-- Decimal rendering of a natural number. -/
def natToStr (n : Nat) : Str := natToStrAux (n + 1) n

/-- Rendering of an integer. -/
def intToStr : Int → Str
  | .ofNat n => natToStr n
  | .negSucc n => '-' :: natToStr (n + 1)

/-- Number-to-string conversion standing in for the JavaScript `Number`
rendering: exact for integers (the only numbers the claims stringify);
non-integral rationals are rendered as `num/den`, an admitted
approximation of the decimal float rendering. -/
def ratToStr (q : Rat) : Str :=
  if q.den = 1 then intToStr q.num
  else intToStr q.num ++ '/' :: natToStr q.den

mutual

/-- `String(v)` of JavaScript: identity on strings, `"null"`, `"true"`,
`"false"`, number rendering, comma-joined recursive rendering for arrays
(`Array.prototype.join`, with `null` elements rendered empty), and
`"[object Object]"` for plain objects. -/
def jsToString : JSON → Str
  | .null => "null".data
  | .bool true => "true".data
  | .bool false => "false".data
  | .num q => ratToStr q
  | .str s => s
  | .arr elems => jsJoinElems elems
  | .obj _ => "[object Object]".data

/-- Comma-joined rendering of array elements (`Array.prototype.join`);
a `null` element renders as the empty string. -/
def jsJoinElems : List JSON → Str
  | [] => []
  | [.null] => []
  | [e] => jsToString e
  | .null :: rest => ',' :: jsJoinElems rest
  | e :: rest => jsToString e ++ ',' :: jsJoinElems rest

end

/-- The rendering of one array element inside `Array.prototype.join`
(`null` renders empty); named for use in proofs about `jsJoinElems`. -/
def jsElemStr : JSON → Str
  | .null => []
  | v => jsToString v

mutual

/-- `collectStrings` of `normalizeBehavior`: depth-first collection of
every (non-empty, because of the `!v` guard) string value in a JSON
tree, objects by field order then arrays by element order. -/
def collectStrings : JSON → List Str
  | .str s => if s = [] then [] else [s]
  | .arr elems => collectStringsL elems
  | .obj fields => collectStringsF fields
  | _ => []

/-- `collectStrings` over the elements of an array. -/
def collectStringsL : List JSON → List Str
  | [] => []
  | v :: vs => collectStrings v ++ collectStringsL vs

/-- `collectStrings` over the field values of an object. -/
def collectStringsF : List (Str × JSON) → List Str
  | [] => []
  | (_, v) :: fs => collectStrings v ++ collectStringsF fs

end

/-! ## Deduplication and array-of-strings coercions -/

/-- First-occurrence deduplication with an accumulator of already-seen
elements. -/
def firstDedupAux (seen : List Str) : List Str → List Str
  | [] => []
  | x :: xs =>
    if x ∈ seen then firstDedupAux seen xs
    else x :: firstDedupAux (x :: seen) xs

/-- First-occurrence deduplication, the order `Array.from(new Set(xs))`
produces. -/
def firstDedup (l : List Str) : List Str := firstDedupAux [] l

/-- `uniq` of `normalizeBehavior`:
`Array.from(new Set(arr.map(String).map(s => s.trim()).filter(Boolean)))`.
The inputs are lists of strings, so `map(String)` is the identity. -/
def uniq (l : List Str) : List Str :=
  firstDedup ((l.map trim).filter (fun s => s ≠ []))

/-- `toArrayStrings` of `normalizeBehavior`: arrays are stringified
element-wise, trimmed and stripped of blanks; strings are split into
sentences; everything else (including the falsy values caught by the
`!v && v !== 0` guard) yields the empty list. -/
def toArrayStrings (v : Option JSON) : List Str :=
  match v with
  | some (.arr elems) => ((elems.map jsToString).map trim).filter (fun s => s ≠ [])
  | some (.str s) => if s = [] then [] else splitSentences s
  | _ => []

/-! ## Suggestion normalizer -/

/-- The canonical suggestion entry `{text, rationale, confidence}`.
`text` and `rationale` are whatever truthy JavaScript value the alias
probing found (or the string default); `confidence` is `some` exactly
when the source value was a number (`null` otherwise). -/
structure SuggestionEntry where
  text : JSON
  rationale : JSON
  confidence : Option Rat
deriving Repr

/-- One entry of `ensureSuggestionObjects`: strings become bare entries;
objects (and arrays, which also satisfy `typeof item === 'object'`) get
alias-probed fields with a `String(item)` fallback for the text; other
values are stringified. -/
def ensureSuggestionEntry (item : JSON) : SuggestionEntry :=
  match item with
  | .str s => { text := .str s, rationale := .str [], confidence := none }
  | .arr _ | .obj _ =>
    { text := jsOr (jgetS item "text") (jsOr (jgetS item "title")
        (jsOr (jgetS item "label") (some (.str (jsToString item))))) |>.getD .null
      rationale := jsOr (jgetS item "rationale") (jsOr (jgetS item "reason")
        (jsOr (jgetS item "explanation") (some (.str [])))) |>.getD .null
      confidence := match jgetS item "confidence" with
        | some (.num q) => some q
        | _ => none }
  | _ => { text := .str (jsToString item), rationale := .str [], confidence := none }

/-- `ensureSuggestionObjects`: `[]` on non-arrays, else the element-wise
coercion to the stable `{text, rationale, confidence}` shape. -/
def ensureSuggestionObjects (v : Option JSON) : List SuggestionEntry :=
  match v with
  | some (.arr elems) => elems.map ensureSuggestionEntry
  | _ => []

/-! ## The canonical behavioral-intervention plan and its normalizer

Each `let`-style local of the JavaScript `normalizeBehavior` is a named
top-level definition. Nested sub-objects (`replacement_behavior`,
`data_collection`, `meta`) are flattened into prefixed fields of the
record; `meta` keeps its two possible states (empty in the non-object
fallback, the two-key mapping otherwise) through `Option` fields. -/

/-- `typeof v === 'object' && v` truthiness combination used by the guard
clauses: arrays and plain objects (and not `null`, which is falsy). -/
def isObjectLike : JSON → Bool
  | .arr _ => true
  | .obj _ => true
  | _ => false

/-- The canonical behavior plan record. -/
structure BehaviorPlan where
  behavior_goal : Option JSON
  summary : Option JSON
  antecedents : List Str
  consequences : List Str
  function_analysis : Option JSON
  antecedent_strategies : List Str
  replacement_skill : Option JSON
  replacement_modality : Option JSON
  consequence_strategies : List Str
  data_metric : Option JSON
  data_tool : Option JSON
  review_after_days : Option JSON
  safety_flag : Bool
  suggestions : List Str
  customizations : List Str
  parent_instructions : Option JSON
  meta_confidence : Option JSON
  meta_notes : Option JSON
deriving Repr

/-- The initial `canonical` literal of `normalizeBehavior` (the `meta: {}`
field starts with no keys, hence the two `none`s). -/
def behaviorDefault : BehaviorPlan where
  behavior_goal := some (.str [])
  summary := some (.str [])
  antecedents := []
  consequences := []
  function_analysis := some (.str [])
  antecedent_strategies := []
  replacement_skill := some (.str [])
  replacement_modality := some (.str [])
  consequence_strategies := []
  data_metric := some (.str [])
  data_tool := some (.str [])
  review_after_days := some (.num 14)
  safety_flag := false
  suggestions := []
  customizations := []
  parent_instructions := some (.str [])
  meta_confidence := none
  meta_notes := none

/-- The localized default placed in `suggestions` when no valid AI output
object exists. -/
def noAiOutputMsg : Str := "لا توجد مخرجات AI صالحة؛ تم إرجاع ملخص افتراضي.".data

/-- `canonical.summary` of `normalizeBehavior` (object branch). -/
def behaviorSummaryVal (parsed : JSON) : Option JSON :=
  jsOr (jgetS parsed "summary") (jsOr (jgetS parsed "behavior_goal")
    (jsOr (jgetS parsed "smart_goal") (jsOr (jgetS parsed "overview") (some (.str [])))))

/-- `canonical.behavior_goal` of `normalizeBehavior`. -/
def behaviorGoalVal (parsed : JSON) : Option JSON :=
  jsOr (jgetS parsed "behavior_goal") (jsOr (jgetS parsed "smart_goal")
    (jsOr (jgetS parsed "summary") (some (.str []))))

/-- Primary alias-key extraction of `antecedents`. -/
def behaviorPrimaryAntecedents (parsed : JSON) : List Str :=
  toArrayStrings (jsOr (jgetS parsed "antecedents") (jsOr (jgetS parsed "antecedent")
    (jsOr (jgetS parsed "preceding") (jgetS parsed "before"))))

/-- Primary alias-key extraction of `consequences`. -/
def behaviorPrimaryConsequences (parsed : JSON) : List Str :=
  toArrayStrings (jsOr (jgetS parsed "consequences") (jsOr (jgetS parsed "consequence")
    (jsOr (jgetS parsed "following") (jgetS parsed "after"))))

/-- `canonical.function_analysis`. -/
def behaviorFunctionVal (parsed : JSON) : Option JSON :=
  jsOr (jgetS parsed "function_analysis") (jsOr (jgetS parsed "behavior_function")
    (jsOr (jgetS parsed "hypothesized_function")
      (jsOr (jgetS parsed "function") (some (.str [])))))

/-- Primary alias-key extraction of `antecedent_strategies`. -/
def behaviorPrimaryAntStrategies (parsed : JSON) : List Str :=
  toArrayStrings (jsOr (jgetS parsed "antecedent_strategies")
    (jsOr (jgetS parsed "antecedentStrategies") (jsOr (jgetS parsed "prevention")
      (jsOr (jgetS parsed "proactive") (jgetS parsed "prep")))))

/-- Primary alias-key extraction of `consequence_strategies`. -/
def behaviorPrimaryConStrategies (parsed : JSON) : List Str :=
  toArrayStrings (jsOr (jgetS parsed "consequence_strategies")
    (jsOr (jgetS parsed "consequenceStrategies") (jsOr (jgetS parsed "response_strategies")
      (jsOr (jgetS parsed "reactive") (jgetS parsed "reinforcement")))))

/-- The separators of the replacement-behavior string split `/\||\-|\:/`. -/
def isRepSep (c : Char) : Bool := c = '|' ∨ c = '-' ∨ c = ':'

/-- The three-way polymorphic `replacement_behavior` parsing, yielding the
`(skill, modality)` pair. -/
def behaviorReplacementVal (parsed : JSON) : Option JSON × Option JSON :=
  match jgetS parsed "replacement_behavior" with
  | some (.obj fs) =>
    (jsOr (getField fs "skill".data) (jsOr (getField fs "name".data)
       (jsOr (getField fs "label".data) (some (.str [])))),
     jsOr (getField fs "modality".data) (jsOr (getField fs "medium".data) (some (.str []))))
  | some (.arr _) =>
    -- an array also passes `typeof === 'object'`; its named fields are undefined
    (some (.str []), some (.str []))
  | some (.str s) =>
    let parts := ((splitOnChar isRepSep s).map trim).filter (fun p => p ≠ [])
    (some (.str (match parts with | p0 :: _ => p0 | [] => s)),
     some (.str (match parts with | _ :: p1 :: _ => p1 | _ => [])))
  | _ =>
    (jsOr (jgetS parsed "replacement") (jsOr (jgetS parsed "replacement_skill") (some (.str []))),
     jsOr (jgetS parsed "replacement_modality") (some (.str [])))

/-- `canonical.data_collection.metric`. -/
def behaviorDataMetric (parsed : JSON) : Option JSON :=
  jsOr (jsAnd (jgetS parsed "data_collection")
      (jsOr (jchain (jgetS parsed "data_collection") "metric")
        (jchain (jgetS parsed "data_collection") "measure")))
    (jsOr (jchain (jgetS parsed "measurement") "type")
      (jsOr (jgetS parsed "metric") (some (.str []))))

/-- `canonical.data_collection.tool`. -/
def behaviorDataTool (parsed : JSON) : Option JSON :=
  jsOr (jsAnd (jgetS parsed "data_collection")
      (jsOr (jchain (jgetS parsed "data_collection") "tool")
        (jchain (jgetS parsed "data_collection") "instrument")))
    (jsOr (jchain (jgetS parsed "measurement") "sheet")
      (jsOr (jgetS parsed "tool") (some (.str []))))

/-- `canonical.review_after_days`:
`parsed.review_after_days || parsed.meta?.review_after_days || parsed.review || 14`. -/
def behaviorReviewVal (parsed : JSON) : Option JSON :=
  jsOr (jgetS parsed "review_after_days")
    (jsOr (jchain (jgetS parsed "meta") "review_after_days")
      (jsOr (jgetS parsed "review") (some (.num 14))))

/-- `canonical.safety_flag`: a disjunction of two truthiness casts and one
strict equality with the localized "severe" literal. -/
def behaviorSafetyVal (parsed : JSON) : Bool :=
  jsTruthyO (jgetS parsed "safety_flag")
    || jsTruthyO (jchain (jgetS parsed "meta") "safety_flag")
    || (match jgetS parsed "severity" with
        | some (.str s) => s == "شديد".data
        | _ => false)

/-- Pre-dedup `canonical.suggestions`. -/
def behaviorSuggestions0 (parsed : JSON) : List Str :=
  toArrayStrings (jsOr (jgetS parsed "suggestions")
    (jsOr (jgetS parsed "recommendations") (jgetS parsed "advice")))

/-- Pre-dedup `canonical.customizations`. -/
def behaviorCustomizations0 (parsed : JSON) : List Str :=
  toArrayStrings (jsOr (jgetS parsed "customizations")
    (jsOr (jgetS parsed "tweaks") (jgetS parsed "modifications")))

/-- `canonical.parent_instructions`. -/
def behaviorParentVal (parsed : JSON) : Option JSON :=
  jsOr (jgetS parsed "parent_instructions") (jsOr (jgetS parsed "caregiver_instructions")
    (jsOr (jgetS parsed "home_instructions") (some (.str []))))

/-- `canonical.meta.model_provided_confidence`. -/
def behaviorMetaConfidence (parsed : JSON) : Option JSON :=
  jsOr (jgetS parsed "confidence") (jsOr (jgetS parsed "confidence_score") (some .null))

/-- `canonical.meta.notes`. -/
def behaviorMetaNotes (parsed : JSON) : Option JSON :=
  jsOr (jgetS parsed "_notes") (jsOr (jgetS parsed "notes") (some (.str [])))

/-- All sentence units found anywhere in the parsed tree:
`collectStrings(parsed).flatMap(s => splitSentences(String(s)))`
(`String(s)` is the identity here because only strings are collected). -/
def behaviorAllSentences (parsed : JSON) : List Str :=
  (collectStrings parsed).flatMap splitSentences

/-- The heuristic antecedent candidates. -/
def antecedentCandidates (parsed : JSON) : List Str :=
  (behaviorAllSentences parsed).filter (fun s => containsKeyword s antecedentKeywords)

/-- The heuristic consequence candidates. -/
def consequenceCandidates (parsed : JSON) : List Str :=
  (behaviorAllSentences parsed).filter (fun s => containsKeyword s consequenceKeywords)

/-- `antecedents` after the heuristic recovery pass. -/
def behaviorAntecedents1 (parsed : JSON) : List Str :=
  if behaviorPrimaryAntecedents parsed = [] then
    (let cand := antecedentCandidates parsed
     if cand ≠ [] then cand else behaviorPrimaryAntecedents parsed)
  else behaviorPrimaryAntecedents parsed

/-- `consequences` after the heuristic recovery pass. -/
def behaviorConsequences1 (parsed : JSON) : List Str :=
  if behaviorPrimaryConsequences parsed = [] then
    (let cand := consequenceCandidates parsed
     if cand ≠ [] then cand else behaviorPrimaryConsequences parsed)
  else behaviorPrimaryConsequences parsed

/-- `antecedent_strategies` after the fallback from `suggestions`
(`cand = suggestions.length ? suggestions.map(text-or-String) : []`,
then `cand.slice(0, 6)`; the map is the identity on the string lists
`toArrayStrings` produces). -/
def behaviorAntStrategies1 (parsed : JSON) : List Str :=
  if behaviorPrimaryAntStrategies parsed = [] then
    (if behaviorSuggestions0 parsed ≠ [] then behaviorSuggestions0 parsed else []).take 6
  else behaviorPrimaryAntStrategies parsed

/-- `consequence_strategies` after the fallback from `customizations`. -/
def behaviorConStrategies1 (parsed : JSON) : List Str :=
  if behaviorPrimaryConStrategies parsed = [] then
    (if behaviorCustomizations0 parsed ≠ [] then behaviorCustomizations0 parsed else []).take 6
  else behaviorPrimaryConStrategies parsed

/-- `consequences` after the extra summary-only fallback pass. -/
def behaviorConsequences2 (parsed : JSON) : List Str :=
  if behaviorConsequences1 parsed = [] ∧ jsTruthyO (behaviorSummaryVal parsed) then
    (let sents := (splitSentencesJS (behaviorSummaryVal parsed)).filter (fun s => s ≠ [])
     let cand := sents.filter (fun s => containsKeyword s consequenceKeywords)
     if cand ≠ [] then cand else behaviorConsequences1 parsed)
  else behaviorConsequences1 parsed

/-- `normalizeBehavior`: the behavioral-intervention-plan normalizer.
The final `if (!length) canonical.x = []` statements of the source are
identities and not repeated here. -/
def normalizeBehavior (parsed : JSON) (fallbackNote : Str) : BehaviorPlan :=
  if ¬ isObjectLike parsed then
    { behaviorDefault with
        summary := some (.str fallbackNote)
        suggestions := [noAiOutputMsg] }
  else
    { behavior_goal := behaviorGoalVal parsed
      summary := behaviorSummaryVal parsed
      antecedents := uniq (behaviorAntecedents1 parsed)
      consequences := uniq (behaviorConsequences2 parsed)
      function_analysis := behaviorFunctionVal parsed
      antecedent_strategies := uniq (behaviorAntStrategies1 parsed)
      replacement_skill := (behaviorReplacementVal parsed).1
      replacement_modality := (behaviorReplacementVal parsed).2
      consequence_strategies := uniq (behaviorConStrategies1 parsed)
      data_metric := behaviorDataMetric parsed
      data_tool := behaviorDataTool parsed
      review_after_days := behaviorReviewVal parsed
      safety_flag := behaviorSafetyVal parsed
      suggestions := uniq (behaviorSuggestions0 parsed)
      customizations := uniq (behaviorCustomizations0 parsed)
      parent_instructions := behaviorParentVal parsed
      meta_confidence := behaviorMetaConfidence parsed
      meta_notes := behaviorMetaNotes parsed }

/-! ## `JSON.stringify` and line splitting (general-plan helpers) -/

/-- Lowercase hexadecimal digit. -/
def hexDigit (n : Nat) : Char :=
  if n < 10 then Char.ofNat ('0'.toNat + n) else Char.ofNat ('a'.toNat + n - 10)

/-- `JSON.stringify` escaping of one string character. -/
def escapeChar (c : Char) : Str :=
  if c = '"' then ['\\', '"']
  else if c = '\\' then ['\\', '\\']
  else if c = '\n' then ['\\', 'n']
  else if c = '\r' then ['\\', 'r']
  else if c = '\t' then ['\\', 't']
  else if c.toNat = 8 then ['\\', 'b']
  else if c.toNat = 12 then ['\\', 'f']
  else if c.toNat < 0x20 then
    ['\\', 'u', '0', '0', hexDigit (c.toNat / 16), hexDigit (c.toNat % 16)]
  else [c]

/-- A double-quoted, escaped JSON string literal. -/
def quoteStr (s : Str) : Str := '"' :: s.flatMap escapeChar ++ ['"']

mutual

/-- `JSON.stringify(v)` (no indentation, as called by `normalizeAi`). -/
def jsonStringify : JSON → Str
  | .null => "null".data
  | .bool true => "true".data
  | .bool false => "false".data
  | .num q => ratToStr q
  | .str s => quoteStr s
  | .arr elems => '[' :: jsonStringifyElems elems ++ [']']
  | .obj fields => '\x7b' :: jsonStringifyFields fields ++ ['\x7d']

/-- Array elements of `JSON.stringify`. -/
def jsonStringifyElems : List JSON → Str
  | [] => []
  | [e] => jsonStringify e
  | e :: rest => jsonStringify e ++ ',' :: jsonStringifyElems rest

/-- Object fields of `JSON.stringify`. -/
def jsonStringifyFields : List (Str × JSON) → Str
  | [] => []
  | [(k, v)] => quoteStr k ++ ':' :: jsonStringify v
  | (k, v) :: rest => quoteStr k ++ ':' :: jsonStringify v ++ ',' :: jsonStringifyFields rest

end

/-- Split on the regex `/\r?\n/`: at every newline, consuming one
carriage return immediately before it. -/
def splitLines : Str → List Str
  | [] => [[]]
  | '\r' :: '\n' :: cs => [] :: splitLines cs
  | '\n' :: cs => [] :: splitLines cs
  | c :: cs =>
    match splitLines cs with
    | [] => [[]]
    | h :: t => (c :: h) :: t

/-! ## The canonical general plan and its normalizer -/

/-- An entry of `canonical.activities`: `{type, name}`. -/
structure Activity where
  type : JSON
  name : JSON
deriving Repr

/-- The canonical general plan record (nested sub-objects flattened into
prefixed fields, as for `BehaviorPlan`). -/
structure GeneralPlan where
  smart_goal : Option JSON
  summary : Option JSON
  teaching_strategy : Option JSON
  task_analysis_steps : List Str
  subgoals : List Str
  activities : List Activity
  execution_plan : List Str
  reinforcement_type : Option JSON
  reinforcement_schedule : Option JSON
  measurement_type : Option JSON
  measurement_sheet : Option JSON
  generalization_plan : List Str
  accommodations : List Str
  suggestions : List Str
  customizations : List Str
  parent_instructions : Option JSON
  meta_confidence : Option JSON
  meta_notes : Option JSON
deriving Repr

/-- The initial `canonical` literal of `normalizeAi`. -/
def generalDefault : GeneralPlan where
  smart_goal := some (.str [])
  summary := some (.str [])
  teaching_strategy := some (.str [])
  task_analysis_steps := []
  subgoals := []
  activities := []
  execution_plan := []
  reinforcement_type := some (.str [])
  reinforcement_schedule := some (.str [])
  measurement_type := some (.str [])
  measurement_sheet := some (.str [])
  generalization_plan := []
  accommodations := []
  suggestions := []
  customizations := []
  parent_instructions := some (.str [])
  meta_confidence := none
  meta_notes := none

/-- The repeated inline array-of-strings coercion of `normalizeAi`
(`Array.isArray(x) ? x.map(String) : (typeof x === 'string' && x.trim() ?
x.split(/\r?\n/).map(trim).filter(Boolean) : default [])`). Unlike the
behavior-plan `toArrayStrings`, the array branch neither trims nor drops
blank entries. -/
def aiCoerce (v : Option JSON) : List Str :=
  match v with
  | some (.arr elems) => elems.map jsToString
  | some (.str s) =>
    if trim s ≠ [] then ((splitLines s).map trim).filter (fun p => p ≠ []) else []
  | _ => []

/-- The variant used for `suggestions`/`customizations` (a plain ternary
without the `x.trim()` guard on the string branch). -/
def aiSuggCoerce (v : Option JSON) : List Str :=
  match v with
  | some (.arr elems) => elems.map jsToString
  | some (.str s) => ((splitLines s).map trim).filter (fun p => p ≠ [])
  | _ => []

/-- `canonical.summary` of `normalizeAi`. -/
def aiSummaryVal (parsed : JSON) : Option JSON :=
  jsOr (jgetS parsed "summary") (jsOr (jgetS parsed "smart_goal")
    (jsOr (jgetS parsed "overview") (some (.str []))))

/-- `canonical.smart_goal` before the back-fill pass. -/
def aiSmartGoal0 (parsed : JSON) : Option JSON :=
  jsOr (jgetS parsed "smart_goal") (jsOr (jgetS parsed "summary")
    (jsOr (jgetS parsed "goal") (aiSummaryVal parsed)))

/-- `canonical.teaching_strategy` before the back-fill pass. -/
def aiTeaching0 (parsed : JSON) : Option JSON :=
  jsOr (jgetS parsed "teaching_strategy") (jsOr (jgetS parsed "strategy")
    (jsOr (jgetS parsed "customization") (jsOr (jgetS parsed "teaching") (some (.str [])))))

/-- Primary extraction of `task_analysis_steps` (note that
`customizations` is itself one of the probed aliases). -/
def aiPrimaryTasks (parsed : JSON) : List Str :=
  aiCoerce (jsOr (jgetS parsed "task_analysis_steps") (jsOr (jgetS parsed "task_analysis")
    (jsOr (jgetS parsed "steps") (jsOr (jgetS parsed "tasks")
      (jsOr (jgetS parsed "customizations") (some (.arr [])))))))

/-- `canonical.subgoals`. -/
def aiSubgoals (parsed : JSON) : List Str :=
  aiCoerce (jsOr (jgetS parsed "subgoals") (jsOr (jgetS parsed "goals")
    (jsOr (jgetS parsed "suggestions") (jsOr (jgetS parsed "phases") (some (.arr []))))))

/-- Colon split of an activity string (pieces trimmed, empties kept). -/
def colonParts (s : Str) : List Str :=
  (splitOnChar (fun c => c = ':') s).map trim

/-- Activity from a string element of an activities array. -/
def activityOfString (s : Str) : Activity :=
  match colonParts s with
  | p0 :: p1 :: rest => { type := .str p0, name := .str (List.intercalate [':'] (p1 :: rest)) }
  | _ => { type := .str "نشاط".data, name := .str s }

/-- Activity from one element of an activities array (three-way
polymorphic: string / object-or-array / other). -/
def activityOfElem (a : JSON) : Activity :=
  match a with
  | .str s => activityOfString s
  | .arr _ | .obj _ =>
    { type := jsOr (jgetS a "type") (jsOr (jgetS a "kind")
        (jsOr (jgetS a "category") (some (.str "نشاط".data)))) |>.getD .null
      name := jsOr (jgetS a "name") (jsOr (jgetS a "title")
        (jsOr (jgetS a "label") (some (.str (jsonStringify a))))) |>.getD .null }
  | _ => { type := .str "نشاط".data, name := .str (jsToString a) }

/-- Activity from one line of an activities string (the `name` of a
colon-free line is trimmed here, unlike the array-element case). -/
def activityOfLine (s : Str) : Activity :=
  match colonParts s with
  | p0 :: p1 :: rest => { type := .str p0, name := .str (List.intercalate [':'] (p1 :: rest)) }
  | _ => { type := .str "نشاط".data, name := .str (trim s) }

/-- `canonical.activities` (the trailing `filter(Boolean)` of the string
branch is a no-op on objects and omitted). -/
def aiActivities (parsed : JSON) : List Activity :=
  match jsOr (jgetS parsed "activities") (jsOr (jgetS parsed "activities_list")
      (jsOr (jgetS parsed "tasks_list") (some (.arr [])))) with
  | some (.arr elems) => elems.map activityOfElem
  | some (.str s) => if trim s ≠ [] then (splitLines s).map activityOfLine else []
  | _ => []

/-- `canonical.execution_plan`. -/
def aiExecPlan (parsed : JSON) : List Str :=
  aiCoerce (jsOr (jgetS parsed "execution_plan") (jsOr (jgetS parsed "execution")
    (jsOr (jgetS parsed "steps_plan") (some (.arr [])))))

/-- `canonical.reinforcement.type`. -/
def aiReinforcementType (parsed : JSON) : Option JSON :=
  jsOr (jsAnd (jgetS parsed "reinforcement")
      (jsOr (jchain (jgetS parsed "reinforcement") "type")
        (jchain (jgetS parsed "reinforcement") "name")))
    (jsOr (jgetS parsed "reinforce") (some (.str [])))

/-- `canonical.reinforcement.schedule`. -/
def aiReinforcementSchedule (parsed : JSON) : Option JSON :=
  jsOr (jsAnd (jgetS parsed "reinforcement")
      (jchain (jgetS parsed "reinforcement") "schedule"))
    (jsOr (jgetS parsed "reinforce_schedule")
      (jsOr (jgetS parsed "reinforcement_schedule") (some (.str []))))

/-- `canonical.measurement.type`. -/
def aiMeasurementType (parsed : JSON) : Option JSON :=
  jsOr (jsAnd (jgetS parsed "measurement")
      (jsOr (jchain (jgetS parsed "measurement") "type")
        (jchain (jgetS parsed "measurement") "method")))
    (jsOr (jgetS parsed "measurement_type") (some (.str [])))

/-- `canonical.measurement.sheet`. -/
def aiMeasurementSheet (parsed : JSON) : Option JSON :=
  jsOr (jsAnd (jgetS parsed "measurement")
      (jchain (jgetS parsed "measurement") "sheet"))
    (jsOr (jgetS parsed "measurement_tool") (some (.str [])))

/-- `canonical.generalization_plan`. -/
def aiGenPlan (parsed : JSON) : List Str :=
  aiCoerce (jsOr (jgetS parsed "generalization_plan") (jsOr (jgetS parsed "generalization")
    (jsOr (jgetS parsed "generalise") (some (.arr [])))))

/-- `canonical.accommodations`. -/
def aiAccommodations (parsed : JSON) : List Str :=
  aiCoerce (jsOr (jgetS parsed "accommodations") (jsOr (jgetS parsed "accommodation")
    (jsOr (jgetS parsed "adaptations") (some (.arr [])))))

/-- `canonical.suggestions` (single key, no aliases). -/
def aiSuggestions (parsed : JSON) : List Str :=
  aiSuggCoerce (jgetS parsed "suggestions")

/-- `canonical.customizations` (single key, no aliases). -/
def aiCustomizations (parsed : JSON) : List Str :=
  aiSuggCoerce (jgetS parsed "customizations")

/-- `canonical.parent_instructions` of `normalizeAi`. -/
def aiParentVal (parsed : JSON) : Option JSON :=
  jsOr (jgetS parsed "parent_instructions") (jsOr (jgetS parsed "caregiver_instructions")
    (jsOr (jgetS parsed "home_instructions") (some (.str []))))

/-- `task_analysis_steps` after back-fill rule (a): seed an empty result
from `customizations`, else `suggestions`, capped at 6. -/
def aiTasks1 (parsed : JSON) : List Str :=
  if aiPrimaryTasks parsed = [] then
    (let maybe := if aiCustomizations parsed ≠ [] then aiCustomizations parsed
                  else aiSuggestions parsed
     if maybe ≠ [] then maybe.take 6 else aiPrimaryTasks parsed)
  else aiPrimaryTasks parsed

/-- `smart_goal` after back-fill rule (b). -/
def aiSmartGoal1 (parsed : JSON) : Option JSON :=
  if jsTruthyO (aiSmartGoal0 parsed) then aiSmartGoal0 parsed
  else jsOr (aiSummaryVal parsed) (some (.str "خطة بناءً على الملاحظة.".data))

/-- `teaching_strategy` after back-fill rule (c). -/
def aiTeaching1 (parsed : JSON) : Option JSON :=
  if jsTruthyO (aiTeaching0 parsed) then aiTeaching0 parsed
  else match aiCustomizations parsed with
    | c :: _ => some (.str c)
    | [] => aiTeaching0 parsed

/-- `normalizeAi`: the general-plan normalizer. -/
def normalizeAi (parsed : JSON) (fallbackNote : Str) : GeneralPlan :=
  if ¬ isObjectLike parsed then
    { generalDefault with
        summary := some (.str fallbackNote)
        suggestions := [noAiOutputMsg] }
  else
    { smart_goal := aiSmartGoal1 parsed
      summary := aiSummaryVal parsed
      teaching_strategy := aiTeaching1 parsed
      task_analysis_steps := aiTasks1 parsed
      subgoals := aiSubgoals parsed
      activities := aiActivities parsed
      execution_plan := aiExecPlan parsed
      reinforcement_type := aiReinforcementType parsed
      reinforcement_schedule := aiReinforcementSchedule parsed
      measurement_type := aiMeasurementType parsed
      measurement_sheet := aiMeasurementSheet parsed
      generalization_plan := aiGenPlan parsed
      accommodations := aiAccommodations parsed
      suggestions := aiSuggestions parsed
      customizations := aiCustomizations parsed
      parent_instructions := aiParentVal parsed
      meta_confidence := behaviorMetaConfidence parsed
      meta_notes := behaviorMetaNotes parsed }

/-! ## Response envelope (POST handler, post-parse pipeline) -/

/-- The behavior-path fallback note of the POST handler:
`String(parsed.summary || parsed.behavior_goal || parsed.smart_goal || '').slice(0, 400)`. -/
def behaviorFallbackNote (parsed : JSON) : Str :=
  (jsToString ((jsOr (jgetS parsed "summary") (jsOr (jgetS parsed "behavior_goal")
    (jsOr (jgetS parsed "smart_goal") (some (.str []))))).getD .null)).take 400

/-- The general-path fallback note:
`String(parsed.summary || parsed.smart_goal || '').slice(0, 400)`. -/
def generalFallbackNote (parsed : JSON) : Str :=
  (jsToString (((jsOr (jgetS parsed "summary")
    (jsOr (jgetS parsed "smart_goal") (some (.str []))))).getD .null)).take 400

/-- The behavior-path suggestion overwrite of the POST handler:
`ensureSuggestionObjects(normalized.suggestions || parsed.suggestions || [])`
(the first operand is always an array, hence always truthy). -/
def behaviorEnvelopeSuggestions (parsed : JSON) : List SuggestionEntry :=
  ensureSuggestionObjects
    (some (.arr ((normalizeBehavior parsed (behaviorFallbackNote parsed)).suggestions.map .str)))

/-- The same overwrite for `customizations`. -/
def behaviorEnvelopeCustomizations (parsed : JSON) : List SuggestionEntry :=
  ensureSuggestionObjects
    (some (.arr ((normalizeBehavior parsed (behaviorFallbackNote parsed)).customizations.map .str)))

/-- The aggregate-confidence computation of the POST handler over a
normalized suggestion list: the arithmetic mean of the non-null
per-suggestion confidences when any exist, else the model-provided
overall confidence when truthy, else `null`. -/
def confidenceOverallOf (l : List SuggestionEntry) (metaConf : Option JSON) : JSON :=
  let cs := l.filterMap (fun s => s.confidence)
  if cs = [] then (if jsTruthyO metaConf then metaConf.getD .null else .null)
  else .num (cs.sum / (cs.length : Rat))

/-- The envelope aggregate confidence emitted on the behavior path. -/
def behaviorConfidenceOverall (parsed : JSON) : JSON :=
  confidenceOverallOf (behaviorEnvelopeSuggestions parsed)
    ((normalizeBehavior parsed (behaviorFallbackNote parsed)).meta_confidence)

/-- The envelope aggregate confidence emitted on the general path: the
suggestions are plain strings there, so `s.confidence` is always
`undefined`, the filtered confidence list is empty, and the computation
always takes the meta fallback. -/
def generalConfidenceOverall (parsed : JSON) : JSON :=
  let n := normalizeAi parsed (generalFallbackNote parsed)
  let confidences := n.suggestions.filterMap (fun _s => (none : Option Rat))
  if confidences = [] then
    (if jsTruthyO n.meta_confidence then n.meta_confidence.getD .null else .null)
  else .num (confidences.sum / (confidences.length : Rat))

/-! ## Serializing a behavior plan back to a JSON value (for re-normalization) -/

/-- Keys whose value is `undefined` in the model were never assigned in
the JavaScript record and are absent from the object. -/
def optFields (l : List (String × Option JSON)) : List (Str × JSON) :=
  l.filterMap (fun p => p.2.map (fun x => (p.1.data, x)))

/-- The behavior-plan record as the JavaScript object it is, in the field
order of the `canonical` literal. -/
def behaviorPlanToJSON (b : BehaviorPlan) : JSON :=
  .obj (optFields [("behavior_goal", b.behavior_goal), ("summary", b.summary)]
    ++ [("antecedents".data, .arr (b.antecedents.map .str)),
        ("consequences".data, .arr (b.consequences.map .str))]
    ++ optFields [("function_analysis", b.function_analysis)]
    ++ [("antecedent_strategies".data, .arr (b.antecedent_strategies.map .str)),
        ("replacement_behavior".data,
          .obj (optFields [("skill", b.replacement_skill), ("modality", b.replacement_modality)])),
        ("consequence_strategies".data, .arr (b.consequence_strategies.map .str)),
        ("data_collection".data,
          .obj (optFields [("metric", b.data_metric), ("tool", b.data_tool)]))]
    ++ optFields [("review_after_days", b.review_after_days)]
    ++ [("safety_flag".data, .bool b.safety_flag),
        ("suggestions".data, .arr (b.suggestions.map .str)),
        ("customizations".data, .arr (b.customizations.map .str))]
    ++ optFields [("parent_instructions", b.parent_instructions)]
    ++ [("meta".data,
         .obj (optFields [("model_provided_confidence", b.meta_confidence),
                          ("notes", b.meta_notes)]))])

/-! ## The JSON parser and `safeParseJSON` -/

/-- JSON insignificant whitespace. -/
def isJsonWs (c : Char) : Bool := c = ' ' ∨ c = '\t' ∨ c = '\n' ∨ c = '\r'

/-- Drop leading JSON whitespace. -/
def skipWs (s : Str) : Str := s.dropWhile isJsonWs

/-- ASCII decimal digit test. -/
def isDigitCh (c : Char) : Bool := '0' ≤ c ∧ c ≤ '9'

/-- One or more decimal digits. -/
def parseDigits (s : Str) : Option (List Char × Str) :=
  let ds := s.takeWhile isDigitCh
  if ds = [] then none else some (ds, s.dropWhile isDigitCh)

/-- Numeric value of a digit run. -/
def digitsToNat (ds : List Char) : Nat :=
  ds.foldl (fun acc c => acc * 10 + (c.toNat - '0'.toNat)) 0

/-- The optional fraction part `.ddd`, as (value, digit count, rest). -/
def parseFrac (s : Str) : Option (Nat × Nat × Str) :=
  match s with
  | '.' :: r =>
    match parseDigits r with
    | some (fs, r2) => some (digitsToNat fs, fs.length, r2)
    | none => none
  | _ => some (0, 0, s)

/-- The optional exponent part `[eE][+-]?ddd`. -/
def parseExp (s : Str) : Option (Int × Str) :=
  match s with
  | c :: r =>
    if c = 'e' ∨ c = 'E' then
      let sr : Int × Str := match r with
        | '+' :: r2 => (1, r2)
        | '-' :: r2 => (-1, r2)
        | _ => (1, r)
      match parseDigits sr.2 with
      | some (ds, r2) => some (sr.1 * digitsToNat ds, r2)
      | none => none
    else some (0, s)
  | [] => some (0, [])

/-- A JSON number literal, as an exact rational (JavaScript's rounding to
binary doubles is not modelled; all numbers the claims involve are
exactly representable either way). -/
def parseNumber (s : Str) : Option (Rat × Str) :=
  let ns : Bool × Str := match s with
    | '-' :: r => (true, r)
    | _ => (false, s)
  match parseDigits ns.2 with
  | none => none
  | some (ds, s2) =>
    if 1 < ds.length ∧ ds.head? = some '0' then none
    else
      match parseFrac s2 with
      | none => none
      | some (fracVal, fracLen, s3) =>
        match parseExp s3 with
        | none => none
        | some (e, s4) =>
          let base : Rat :=
            ((digitsToNat ds * 10 ^ fracLen + fracVal : Nat) : Rat) / ((10 ^ fracLen : Nat) : Rat)
          let mag : Rat :=
            if 0 ≤ e then base * ((10 ^ e.toNat : Nat) : Rat)
            else base / ((10 ^ (-e).toNat : Nat) : Rat)
          some (if ns.1 then -mag else mag, s4)

/-- Value of a hexadecimal digit. -/
def hexVal (c : Char) : Option Nat :=
  if '0' ≤ c ∧ c ≤ '9' then some (c.toNat - '0'.toNat)
  else if 'a' ≤ c ∧ c ≤ 'f' then some (c.toNat - 'a'.toNat + 10)
  else if 'A' ≤ c ∧ c ≤ 'F' then some (c.toNat - 'A'.toNat + 10)
  else none

/-- Single-character string escapes of JSON. -/
def escDecode : Char → Option Char
  | '"' => some '"'
  | '\\' => some '\\'
  | '/' => some '/'
  | 'b' => some (Char.ofNat 8)
  | 'f' => some (Char.ofNat 12)
  | 'n' => some '\n'
  | 'r' => some '\r'
  | 't' => some '\t'
  | _ => none

/-- The body of a JSON string literal after the opening quote (lone
surrogate `\uXXXX` escapes, unrepresentable as Lean characters, are not
modelled). -/
def parseStringBody : Str → Option (Str × Str)
  | [] => none
  | '"' :: r => some ([], r)
  | '\\' :: 'u' :: a :: b :: c :: d :: r =>
    (match hexVal a, hexVal b, hexVal c, hexVal d with
     | some ha, some hb, some hc, some hd =>
       (parseStringBody r).map (fun p => (Char.ofNat (((ha * 16 + hb) * 16 + hc) * 16 + hd) :: p.1, p.2))
     | _, _, _, _ => none)
  | '\\' :: e :: r =>
    (match escDecode e with
     | some c => (parseStringBody r).map (fun p => (c :: p.1, p.2))
     | none => none)
  | c :: r =>
    if c.toNat < 0x20 then none
    else (parseStringBody r).map (fun p => (c :: p.1, p.2))

/-- Duplicate-key assignment semantics of a JavaScript object literal /
`JSON.parse`: a repeated key keeps its first position and takes its last
value. -/
def assignField (fs : List (Str × JSON)) (k : Str) (v : JSON) : List (Str × JSON) :=
  if fs.any (fun p => p.1 == k) then fs.map (fun p => if p.1 == k then (p.1, v) else p)
  else fs ++ [(k, v)]

/-- Fold a parsed field sequence through assignment. -/
def objAssign (l : List (Str × JSON)) : List (Str × JSON) :=
  l.foldl (fun acc p => assignField acc p.1 p.2) []

mutual

/-- Fuel-indexed JSON value parser (the fuel passed by `jsonParse` is
larger than any possible nesting, so exhaustion never occurs on real
input). -/
def parseValueF : Nat → Str → Option (JSON × Str)
  | 0, _ => none
  | fuel + 1, s =>
    match skipWs s with
    | 'n' :: 'u' :: 'l' :: 'l' :: r => some (.null, r)
    | 't' :: 'r' :: 'u' :: 'e' :: r => some (.bool true, r)
    | 'f' :: 'a' :: 'l' :: 's' :: 'e' :: r => some (.bool false, r)
    | '"' :: r => (parseStringBody r).map (fun p => (.str p.1, p.2))
    | '[' :: r =>
      (match skipWs r with
       | ']' :: r2 => some (.arr [], r2)
       | _ => (parseElemsF fuel r).map (fun p => (.arr p.1, p.2)))
    | '\x7b' :: r =>
      (match skipWs r with
       | '\x7d' :: r2 => some (.obj [], r2)
       | _ => (parseFieldsF fuel r).map (fun p => (.obj (objAssign p.1), p.2)))
    | s' => (parseNumber s').map (fun p => (.num p.1, p.2))

/-- Comma-separated array elements up to the closing bracket. -/
def parseElemsF : Nat → Str → Option (List JSON × Str)
  | 0, _ => none
  | fuel + 1, s =>
    match parseValueF fuel s with
    | none => none
    | some (v, r) =>
      match skipWs r with
      | ',' :: r2 => (parseElemsF fuel r2).map (fun p => (v :: p.1, p.2))
      | ']' :: r2 => some ([v], r2)
      | _ => none

/-- Comma-separated object members up to the closing brace. -/
def parseFieldsF : Nat → Str → Option (List (Str × JSON) × Str)
  | 0, _ => none
  | fuel + 1, s =>
    match skipWs s with
    | '"' :: r =>
      (match parseStringBody r with
       | none => none
       | some (k, r2) =>
         match skipWs r2 with
         | ':' :: r3 =>
           (match parseValueF fuel r3 with
            | none => none
            | some (v, r4) =>
              match skipWs r4 with
              | ',' :: r5 => (parseFieldsF fuel r5).map (fun p => ((k, v) :: p.1, p.2))
              | '\x7d' :: r5 => some ([(k, v)], r5)
              | _ => none)
         | _ => none)
    | _ => none

end

/-- `JSON.parse`: parse one value and require only whitespace after it. -/
def jsonParse (raw : Str) : Option JSON :=
  match parseValueF (4 * raw.length + 4) raw with
  | some (v, rest) => if skipWs rest = [] then some v else none
  | none => none

/-- The substring matched by the greedy regex `/\{[\s\S]*\}/`: from the
first opening brace to the last closing brace, provided the latter comes
later. -/
def bracedSpan (raw : Str) : Option Str :=
  match raw.findIdx? (fun c => c = '\x7b') with
  | none => none
  | some i =>
    match raw.reverse.findIdx? (fun c => c = '\x7d') with
    | none => none
    | some jr =>
      let j := raw.length - 1 - jr
      if i < j then some ((raw.drop i).take (j - i + 1)) else none

/-- `safeParseJSON`: direct parse, then one retry on the greedy
brace-delimited span, then `null`. -/
def safeParseJSON (raw : Str) : Option JSON :=
  if raw = [] then none
  else
    match jsonParse raw with
    | some v => some v
    | none =>
      match bracedSpan raw with
      | some sub => jsonParse sub
      | none => none

/-! ## Predicates used by the keyword-mining analysis -/

/-- A JavaScript value that is neither `undefined` nor `null`. -/
def GoodO (o : Option JSON) : Prop := o ≠ none ∧ o ≠ some .null

/-- Side conditions on a keyword under which sentence-level matching
coincides with whole-string matching: non-empty, free of sentence
separators and commas, non-whitespace at both ends, and containing at
least one non-ASCII character (all the fixed Arabic keywords satisfy
this, by computation). -/
def kwOK (k : Str) : Bool :=
  decide (k ≠ []) && k.all (fun c => ! isSentSep c) &&
  (match k.head? with | some c => ! jsIsWs c | none => true) &&
  (match k.getLast? with | some c => ! jsIsWs c | none => true) &&
  ! k.contains ',' && k.any (fun c => 128 ≤ c.toNat)

/-- "No keyword of `K` occurs (lowercased) in `s`." -/
def noOccStr (K : List Str) (s : Str) : Prop := ∀ k ∈ K, ¬ k <:+: lowerStr s

/-- "No keyword of `K` occurs in any string of the tree `v`." -/
def noOccTree (K : List Str) (v : JSON) : Prop :=
  ∀ s ∈ collectStrings v, noOccStr K s

/-- "No keyword occurs anywhere under this possibly-undefined value." -/
def noOccO (K : List Str) (o : Option JSON) : Prop :=
  ∀ v, o = some v → noOccTree K v

/-! ## Helper lemmas: trimming -/

theorem dropWhile_dropWhile (p : Char → Bool) (l : Str) :
    (l.dropWhile p).dropWhile p = l.dropWhile p := by
  induction l with
  | nil => rfl
  | cons c t ih =>
    by_cases h : p c
    · simp [List.dropWhile_cons, h, ih]
    · simp [List.dropWhile_cons, h]

theorem dropWhile_eq_self_of_head (p : Char → Bool) (l : Str)
    (h : ∀ c, l.head? = some c → ¬ p c) : l.dropWhile p = l := by
  cases l with
  | nil => rfl
  | cons c t => simp [List.dropWhile_cons, h c rfl]

/-- Right trim preserves the head (it only removes a suffix). -/
theorem head?_trimRight (l : Str) :
    (l.reverse.dropWhile jsIsWs).reverse = [] ∨
      ((l.reverse.dropWhile jsIsWs).reverse).head? = l.head? := by
  have hpre : ∃ t, l = (l.reverse.dropWhile jsIsWs).reverse ++ t := by
    obtain ⟨t, ht⟩ := List.dropWhile_suffix (l := l.reverse) (p := jsIsWs)
    refine ⟨t.reverse, ?_⟩
    conv_lhs => rw [← l.reverse_reverse, ← ht]
    simp
  obtain ⟨t, ht⟩ := hpre
  cases hr : (l.reverse.dropWhile jsIsWs).reverse with
  | nil => exact Or.inl rfl
  | cons x xs =>
    right
    rw [ht, hr]
    simp

theorem head?_dropWhile_not (p : Char → Bool) (l : Str) :
    ∀ c, (l.dropWhile p).head? = some c → ¬ p c := by
  induction l with
  | nil => simp
  | cons a t ih =>
    intro c hc
    by_cases h : p a
    · exact ih c (by simpa [List.dropWhile_cons, h] using hc)
    · simp [List.dropWhile_cons, h] at hc
      subst hc; exact h

theorem trim_idem (s : Str) : trim (trim s) = trim s := by
  unfold trim
  have hhead : ∀ c,
      (((s.dropWhile jsIsWs).reverse.dropWhile jsIsWs).reverse).head? = some c →
        ¬ jsIsWs c := by
    rcases head?_trimRight (s.dropWhile jsIsWs) with h | h
    · rw [h]; intro c hc; cases hc
    · rw [h]; exact head?_dropWhile_not jsIsWs s
  rw [dropWhile_eq_self_of_head _ _ hhead, List.reverse_reverse, dropWhile_dropWhile]

theorem trim_nil : trim [] = [] := rfl

/-! ## Helper lemmas: first-occurrence deduplication and `uniq` -/

theorem mem_of_mem_firstDedupAux {seen l : List Str} {x : Str}
    (h : x ∈ firstDedupAux seen l) : x ∈ l := by
  induction l generalizing seen with
  | nil => simp [firstDedupAux] at h
  | cons y ys ih =>
    by_cases hy : y ∈ seen
    · simp only [firstDedupAux, if_pos hy] at h
      exact List.mem_cons_of_mem _ (ih h)
    · simp only [firstDedupAux, if_neg hy, List.mem_cons] at h
      rcases h with h | h
      · exact h ▸ List.mem_cons_self _ _
      · exact List.mem_cons_of_mem _ (ih h)

theorem firstDedupAux_nodup_notin (seen l : List Str) :
    (firstDedupAux seen l).Nodup ∧ ∀ x ∈ firstDedupAux seen l, x ∉ seen := by
  induction l generalizing seen with
  | nil => simp [firstDedupAux]
  | cons y ys ih =>
    by_cases hy : y ∈ seen
    · simpa only [firstDedupAux, if_pos hy] using ih seen
    · simp only [firstDedupAux, if_neg hy]
      obtain ⟨hnd, hni⟩ := ih (y :: seen)
      refine ⟨List.nodup_cons.2 ⟨fun hmem => ?_, hnd⟩, ?_⟩
      · exact (hni y hmem) (List.mem_cons_self _ _)
      · intro x hx
        rcases List.mem_cons.1 hx with rfl | hx
        · exact hy
        · exact fun hs => (hni x hx) (List.mem_cons_of_mem _ hs)

theorem firstDedup_nodup (l : List Str) : (firstDedup l).Nodup :=
  (firstDedupAux_nodup_notin [] l).1

theorem firstDedupAux_eq_self {seen l : List Str} (hnd : l.Nodup)
    (hdisj : ∀ x ∈ l, x ∉ seen) : firstDedupAux seen l = l := by
  induction l generalizing seen with
  | nil => rfl
  | cons y ys ih =>
    have hy : y ∉ seen := hdisj y (List.mem_cons_self _ _)
    simp only [firstDedupAux, if_neg hy]
    congr 1
    refine ih (List.nodup_cons.1 hnd).2 ?_
    intro x hx
    rcases List.nodup_cons.1 hnd with ⟨hyn, _⟩
    intro hs
    rcases List.mem_cons.1 hs with rfl | hs
    · exact hyn hx
    · exact hdisj x (List.mem_cons_of_mem _ hx) hs

theorem firstDedup_eq_self {l : List Str} (hnd : l.Nodup) : firstDedup l = l :=
  firstDedupAux_eq_self hnd (by simp)

theorem mem_uniq {l : List Str} {x : Str} (h : x ∈ uniq l) :
    trim x = x ∧ x ≠ [] ∧ x ∈ l.map trim := by
  have h1 : x ∈ (l.map trim).filter (fun s => s ≠ []) := mem_of_mem_firstDedupAux h
  have h2 := List.of_mem_filter h1
  have h3 := List.mem_of_mem_filter h1
  obtain ⟨y, _, rfl⟩ := List.mem_map.1 h3
  exact ⟨trim_idem y, by simpa using h2, h3⟩

theorem uniq_eq_self {l : List Str} (h : ∀ x ∈ l, trim x = x ∧ x ≠ []) (hnd : l.Nodup) :
    uniq l = l := by
  unfold uniq
  have hmap : l.map trim = l := List.map_congr_left (fun x hx => (h x hx).1) |>.trans l.map_id
  rw [hmap]
  have hfil : l.filter (fun s => s ≠ []) = l := by
    apply List.filter_eq_self.2
    intro x hx
    simpa using (h x hx).2
  rw [hfil]
  exact firstDedup_eq_self hnd

theorem uniq_nodup (l : List Str) : (uniq l).Nodup := firstDedup_nodup _

theorem uniq_idem (l : List Str) : uniq (uniq l) = uniq l :=
  uniq_eq_self (fun _x hx => ⟨(mem_uniq hx).1, (mem_uniq hx).2.1⟩) (uniq_nodup l)

theorem uniq_nil : uniq [] = [] := rfl

theorem uniq_ne_nil {l : List Str} {x : Str} (hx : x ∈ l) (hne : trim x ≠ []) :
    uniq l ≠ [] := by
  unfold uniq
  have : trim x ∈ (l.map trim).filter (fun s => s ≠ []) :=
    List.mem_filter.2 ⟨List.mem_map_of_mem _ hx, by simpa using hne⟩
  cases hfd : (l.map trim).filter (fun s => s ≠ []) with
  | nil => rw [hfd] at this; cases this
  | cons a t => simp [firstDedup, firstDedupAux]

/-! ## Helper lemmas: split and coercion element invariants -/

theorem mem_splitSentences {s u : Str} (h : u ∈ splitSentences s) :
    trim u = u ∧ u ≠ [] := by
  unfold splitSentences at h
  have h2 := List.of_mem_filter h
  have h3 := List.mem_of_mem_filter h
  obtain ⟨p, _, rfl⟩ := List.mem_map.1 h3
  exact ⟨trim_idem p, by simpa using h2⟩

theorem mem_toArrayStrings {v : Option JSON} {x : Str} (h : x ∈ toArrayStrings v) :
    trim x = x ∧ x ≠ [] := by
  match v with
  | some (.arr elems) =>
    simp only [toArrayStrings] at h
    have h2 := List.of_mem_filter h
    have h3 := List.mem_of_mem_filter h
    obtain ⟨p, _, rfl⟩ := List.mem_map.1 h3
    exact ⟨trim_idem p, by simpa using h2⟩
  | some (.str s) =>
    simp only [toArrayStrings] at h
    by_cases hs : s = []
    · simp [hs] at h
    · rw [if_neg hs] at h
      exact mem_splitSentences h
  | none => cases h
  | some .null => cases h
  | some (.bool b) => cases h
  | some (.num q) => cases h
  | some (.obj fs) => cases h

/-! ## Helper lemmas: defined and non-null values -/


theorem goodO_of_truthy {o : Option JSON} (h : jsTruthyO o = true) : GoodO o := by
  match o with
  | none => cases h
  | some .null => cases h
  | some (.bool b) => exact ⟨Option.some_ne_none _ ∘ Eq.symm ∘ Eq.symm, by simp⟩
  | some (.num q) => exact ⟨by simp, by simp⟩
  | some (.str s) => exact ⟨by simp, by simp⟩
  | some (.arr l) => exact ⟨by simp, by simp⟩
  | some (.obj fs) => exact ⟨by simp, by simp⟩

theorem goodO_jsOr {a b : Option JSON} (hb : GoodO b) : GoodO (jsOr a b) := by
  unfold jsOr
  by_cases h : jsTruthyO a = true
  · rw [if_pos h]; exact goodO_of_truthy h
  · simp only [Bool.not_eq_true] at h
    rw [h]; simpa using hb

theorem goodO_str (s : Str) : GoodO (some (.str s)) := ⟨by simp, by simp⟩

theorem goodO_num (q : Rat) : GoodO (some (.num q)) := ⟨by simp, by simp⟩

/-! ## Claim C2: totality and fully-populated canonical records -/

theorem goodO_behaviorGoalVal (parsed : JSON) : GoodO (behaviorGoalVal parsed) :=
  goodO_jsOr (goodO_jsOr (goodO_jsOr (goodO_str [])))

theorem goodO_behaviorSummaryVal (parsed : JSON) : GoodO (behaviorSummaryVal parsed) :=
  goodO_jsOr (goodO_jsOr (goodO_jsOr (goodO_jsOr (goodO_str []))))

theorem goodO_behaviorReplacement (parsed : JSON) :
    GoodO (behaviorReplacementVal parsed).1 ∧ GoodO (behaviorReplacementVal parsed).2 := by
  unfold behaviorReplacementVal
  match jgetS parsed "replacement_behavior" with
  | some (.obj fs) =>
    exact ⟨goodO_jsOr (goodO_jsOr (goodO_jsOr (goodO_str []))),
           goodO_jsOr (goodO_jsOr (goodO_str []))⟩
  | some (.arr l) => exact ⟨goodO_str [], goodO_str []⟩
  | some (.str s) => exact ⟨goodO_str _, goodO_str _⟩
  | some .null => exact ⟨goodO_jsOr (goodO_jsOr (goodO_str [])), goodO_jsOr (goodO_str [])⟩
  | some (.bool b) => exact ⟨goodO_jsOr (goodO_jsOr (goodO_str [])), goodO_jsOr (goodO_str [])⟩
  | some (.num q) => exact ⟨goodO_jsOr (goodO_jsOr (goodO_str [])), goodO_jsOr (goodO_str [])⟩
  | none => exact ⟨goodO_jsOr (goodO_jsOr (goodO_str [])), goodO_jsOr (goodO_str [])⟩

theorem goodO_aiSmartGoal1 (parsed : JSON) : GoodO (aiSmartGoal1 parsed) := by
  unfold aiSmartGoal1
  by_cases h : jsTruthyO (aiSmartGoal0 parsed) = true
  · rw [if_pos h]; exact goodO_of_truthy h
  · simp only [Bool.not_eq_true] at h
    rw [h]
    simp only [Bool.false_eq_true, if_false]
    exact goodO_jsOr (goodO_str _)

theorem goodO_aiTeaching1 (parsed : JSON) : GoodO (aiTeaching1 parsed) := by
  unfold aiTeaching1
  by_cases h : jsTruthyO (aiTeaching0 parsed) = true
  · rw [if_pos h]; exact goodO_of_truthy h
  · simp only [Bool.not_eq_true] at h
    rw [h]
    simp only [Bool.false_eq_true, if_false]
    match aiCustomizations parsed with
    | c :: _ => exact goodO_str c
    | [] => exact goodO_jsOr (goodO_jsOr (goodO_jsOr (goodO_jsOr (goodO_str []))))

/-- C2. Totality: both normalizers are total functions (they are plain
recursive definitions of this file, so termination and absence of
exceptions hold by construction), and for every JSON input the returned
record has every canonical field defined and non-null: the string-like
fields are never `undefined`/`null` (`GoodO`), the sequence fields are
typed lists (present by construction), and an input object providing
nothing usable yields the fully-defaulted record. -/
theorem claim_C2 (parsed : JSON) (fb : Str) :
    (GoodO (normalizeAi parsed fb).smart_goal ∧
     GoodO (normalizeAi parsed fb).summary ∧
     GoodO (normalizeAi parsed fb).teaching_strategy ∧
     GoodO (normalizeAi parsed fb).reinforcement_type ∧
     GoodO (normalizeAi parsed fb).reinforcement_schedule ∧
     GoodO (normalizeAi parsed fb).measurement_type ∧
     GoodO (normalizeAi parsed fb).measurement_sheet ∧
     GoodO (normalizeAi parsed fb).parent_instructions) ∧
    (GoodO (normalizeBehavior parsed fb).behavior_goal ∧
     GoodO (normalizeBehavior parsed fb).summary ∧
     GoodO (normalizeBehavior parsed fb).function_analysis ∧
     GoodO (normalizeBehavior parsed fb).replacement_skill ∧
     GoodO (normalizeBehavior parsed fb).replacement_modality ∧
     GoodO (normalizeBehavior parsed fb).data_metric ∧
     GoodO (normalizeBehavior parsed fb).data_tool ∧
     GoodO (normalizeBehavior parsed fb).review_after_days ∧
     GoodO (normalizeBehavior parsed fb).parent_instructions) ∧
    normalizeAi (.obj []) [] =
      { generalDefault with
          smart_goal := some (.str "خطة بناءً على الملاحظة.".data)
          meta_confidence := some .null
          meta_notes := some (.str []) } ∧
    normalizeBehavior (.obj []) [] =
      { behaviorDefault with
          meta_confidence := some .null
          meta_notes := some (.str []) } := by
  refine ⟨?_, ?_, by rfl, by rfl⟩
  · by_cases h : isObjectLike parsed = true
    · rw [normalizeAi, if_neg (by simp [h])]
      exact ⟨goodO_aiSmartGoal1 parsed, goodO_jsOr (goodO_jsOr (goodO_jsOr (goodO_str []))),
        goodO_aiTeaching1 parsed,
        goodO_jsOr (goodO_jsOr (goodO_str [])),
        goodO_jsOr (goodO_jsOr (goodO_jsOr (goodO_str []))),
        goodO_jsOr (goodO_jsOr (goodO_str [])),
        goodO_jsOr (goodO_jsOr (goodO_str [])),
        goodO_jsOr (goodO_jsOr (goodO_jsOr (goodO_str [])))⟩
    · simp only [Bool.not_eq_true] at h
      rw [normalizeAi, if_pos (by simp [h])]
      exact ⟨goodO_str [], goodO_str fb, goodO_str [], goodO_str [], goodO_str [],
        goodO_str [], goodO_str [], goodO_str []⟩
  · by_cases h : isObjectLike parsed = true
    · rw [normalizeBehavior, if_neg (by simp [h])]
      exact ⟨goodO_behaviorGoalVal parsed, goodO_behaviorSummaryVal parsed,
        goodO_jsOr (goodO_jsOr (goodO_jsOr (goodO_jsOr (goodO_str [])))),
        (goodO_behaviorReplacement parsed).1, (goodO_behaviorReplacement parsed).2,
        goodO_jsOr (goodO_jsOr (goodO_jsOr (goodO_str []))),
        goodO_jsOr (goodO_jsOr (goodO_jsOr (goodO_str []))),
        goodO_jsOr (goodO_jsOr (goodO_jsOr (goodO_num 14))),
        goodO_jsOr (goodO_jsOr (goodO_jsOr (goodO_str [])))⟩
    · simp only [Bool.not_eq_true] at h
      rw [normalizeBehavior, if_pos (by simp [h])]
      exact ⟨goodO_str [], goodO_str fb, goodO_str [], goodO_str [], goodO_str [],
        goodO_str [], goodO_str [], goodO_num 14, goodO_str []⟩

/-! ## Claim C7: non-object fallback -/

/-- C7. Non-object fallback: for every `parsed` that is not an object
(`null`, string, number, boolean — all caught by
`!parsed || typeof parsed !== 'object'`), each normalizer returns,
totally, the canonical record whose `summary` is the fallback note
(`fallbackNote || ''` is the note itself for string notes) and whose
`suggestions` is exactly the one localized "no valid AI output" message,
all other fields at their type defaults. -/
theorem claim_C7 (parsed : JSON) (fb : Str) (h : isObjectLike parsed = false) :
    normalizeAi parsed fb =
      { generalDefault with summary := some (.str fb), suggestions := [noAiOutputMsg] } ∧
    normalizeBehavior parsed fb =
      { behaviorDefault with summary := some (.str fb), suggestions := [noAiOutputMsg] } := by
  constructor
  · rw [normalizeAi, if_pos (by simp [h])]
  · rw [normalizeBehavior, if_pos (by simp [h])]

theorem claim_C7_witness :
    isObjectLike (.num 3) = false ∧
    normalizeAi (.num 3) "ملاحظة".data =
      { generalDefault with
          summary := some (.str "ملاحظة".data), suggestions := [noAiOutputMsg] } ∧
    normalizeBehavior (.num 3) "ملاحظة".data =
      { behaviorDefault with
          summary := some (.str "ملاحظة".data), suggestions := [noAiOutputMsg] } :=
  ⟨rfl, (claim_C7 (.num 3) "ملاحظة".data rfl).1, (claim_C7 (.num 3) "ملاحظة".data rfl).2⟩

/-! ## Claim C10: no blank or untrimmed entries in behavior-plan arrays -/

/-- C10. Implicit invariant: for an object input, none of the six array
fields of the behavior plan contains an empty or whitespace-only string,
and every element is trimmed — the final `uniq` pass filters blanks after
trimming. -/
theorem claim_C10 (parsed : JSON) (fb : Str) (h : isObjectLike parsed = true) (x : Str) :
    (x ∈ (normalizeBehavior parsed fb).antecedents ∨
     x ∈ (normalizeBehavior parsed fb).consequences ∨
     x ∈ (normalizeBehavior parsed fb).antecedent_strategies ∨
     x ∈ (normalizeBehavior parsed fb).consequence_strategies ∨
     x ∈ (normalizeBehavior parsed fb).suggestions ∨
     x ∈ (normalizeBehavior parsed fb).customizations) →
    trim x = x ∧ x ≠ [] := by
  rw [normalizeBehavior, if_neg (by simp [h])]
  rintro (hx | hx | hx | hx | hx | hx) <;>
    exact ⟨(mem_uniq hx).1, (mem_uniq hx).2.1⟩

theorem claim_C10_witness :
    trim "a".data = "a".data ∧ "a".data ≠ [] :=
  claim_C10 (.obj [("suggestions".data, .arr [.str " a ".data])]) [] rfl "a".data
    (Or.inr (Or.inr (Or.inr (Or.inr (Or.inl (by decide))))))

/-! ## Claim C6: general-plan back-fill of `task_analysis_steps` -/

/-- C6. Back-fill ordering: when the primary alias extraction of
`task_analysis_steps` is empty, the field is seeded from the normalized
`customizations` when non-empty, else from `suggestions`, capped at 6;
and on `{customizations: ["a","b"], suggestions: ["c"]}` (no
`task_analysis_steps` key) the output is `["a","b"]`. -/
theorem claim_C6 (parsed : JSON) (fb : Str) (hobj : isObjectLike parsed = true)
    (h : aiPrimaryTasks parsed = []) :
    (normalizeAi parsed fb).task_analysis_steps =
      (if (normalizeAi parsed fb).customizations ≠ [] then
        (normalizeAi parsed fb).customizations
       else (normalizeAi parsed fb).suggestions).take 6 ∧
    (normalizeAi (.obj [("customizations".data, .arr [.str "a".data, .str "b".data]),
        ("suggestions".data, .arr [.str "c".data])]) []).task_analysis_steps
      = ["a".data, "b".data] := by
  refine ⟨?_, by rfl⟩
  rw [normalizeAi, if_neg (by simp [hobj])]
  show aiTasks1 parsed = _
  unfold aiTasks1
  rw [if_pos h]
  by_cases hm : (if aiCustomizations parsed ≠ [] then aiCustomizations parsed
      else aiSuggestions parsed) = []
  · simp only [hm, if_neg (by simp : ¬ (([] : List Str) ≠ []))]
    rw [h]
    rfl
  · simp only [if_pos hm]

theorem claim_C6_witness :
    aiPrimaryTasks (.obj [("task_analysis_steps".data, .arr []),
        ("customizations".data, .arr [.str "a".data])]) = [] ∧
    (normalizeAi (.obj [("task_analysis_steps".data, .arr []),
        ("customizations".data, .arr [.str "a".data])]) []).task_analysis_steps
      = ["a".data] :=
  ⟨rfl, ((claim_C6 (.obj [("task_analysis_steps".data, .arr []),
      ("customizations".data, .arr [.str "a".data])]) [] rfl rfl).1).trans (by rfl)⟩

/-! ## Claim C9: `review_after_days` -/

/-- C9 counterexample: with `{review_after_days: 0, review: 7}` the first
*present* alias value is `0`, but the emitted field is `7` — the code
probes by truthiness (`||`), not presence, so a present-but-falsy value
is skipped, refuting the claim as stated. -/
theorem claim_C9_counterexample :
    (normalizeBehavior (.obj [("review_after_days".data, .num 0),
        ("review".data, .num 7)]) []).review_after_days = some (.num 7) ∧
    (JSON.num 7) ≠ (.num 0) := by
  refine ⟨by rfl, by simp⟩

/-- C9 amended: `review_after_days` equals the first *truthy* value among
`review_after_days`, `meta?.review_after_days` and `review` (whatever its
type — the code does not coerce it to an integer), and `14` when all
three are absent (in particular when absent *or falsy* at all three). -/
theorem claim_C9_amended (parsed : JSON) (fb : Str) (hobj : isObjectLike parsed = true) :
    (normalizeBehavior parsed fb).review_after_days =
      jsOr (jgetS parsed "review_after_days")
        (jsOr (jchain (jgetS parsed "meta") "review_after_days")
          (jsOr (jgetS parsed "review") (some (.num 14)))) ∧
    ((jgetS parsed "review_after_days") = none →
     (jchain (jgetS parsed "meta") "review_after_days") = none →
     (jgetS parsed "review") = none →
     (normalizeBehavior parsed fb).review_after_days = some (.num 14)) := by
  have hmain : (normalizeBehavior parsed fb).review_after_days = behaviorReviewVal parsed := by
    rw [normalizeBehavior, if_neg (by simp [hobj])]
  refine ⟨hmain, fun h1 h2 h3 => ?_⟩
  rw [hmain]
  unfold behaviorReviewVal
  rw [h1, h2, h3]
  rfl

theorem claim_C9_witness :
    (normalizeBehavior (.obj []) []).review_after_days = some (.num 14) :=
  (claim_C9_amended (.obj []) [] rfl).2 rfl rfl rfl

/-! ## Claim C4: the array-of-strings coercions -/

/-- C4 counterexample: the general normalizer's array branch is
`map(String)` with no trimming or blank-dropping, so the blank element of
`{subgoals: ["", "a"]}` is retained, refuting the claim that the coercion
drops empty/blank elements in either normalizer. -/
theorem claim_C4_counterexample :
    (normalizeAi (.obj [("subgoals".data, .arr [.str [], .str "a".data])]) []).subgoals
      = [[], "a".data] ∧
    ([] : Str) ∈ (normalizeAi (.obj [("subgoals".data,
        .arr [.str [], .str "a".data])]) []).subgoals := by
  exact ⟨rfl, List.mem_cons_self _ _⟩

/-- C4 amended: the behavior-variant coercion (`toArrayStrings`)
stringifies, trims and drops blank elements of arrays, and splits strings
into sentence units (so its outputs are always trimmed and non-blank);
the general-variant inline coercion maps arrays through stringification
only — blank and untrimmed elements are retained — and splits non-blank
strings on line breaks, trimming pieces and dropping empties; on any
other value both coercions yield the empty sequence. -/
theorem claim_C4_amended (v : Option JSON) :
    (∀ elems, v = some (.arr elems) →
        toArrayStrings v = ((elems.map jsToString).map trim).filter (fun s => s ≠ []) ∧
        aiCoerce v = elems.map jsToString) ∧
    (∀ s, v = some (.str s) →
        toArrayStrings v = (if s = [] then [] else splitSentences s) ∧
        aiCoerce v =
          (if trim s ≠ [] then ((splitLines s).map trim).filter (fun p => p ≠ []) else [])) ∧
    ((∀ elems, v ≠ some (.arr elems)) → (∀ s, v ≠ some (.str s)) →
        toArrayStrings v = [] ∧ aiCoerce v = []) ∧
    (∀ x ∈ toArrayStrings v, trim x = x ∧ x ≠ []) := by
  refine ⟨?_, ?_, ?_, fun x hx => mem_toArrayStrings hx⟩
  · rintro elems rfl
    exact ⟨rfl, rfl⟩
  · rintro s rfl
    exact ⟨rfl, rfl⟩
  · intro ha hs
    match v with
    | none => exact ⟨rfl, rfl⟩
    | some .null => exact ⟨rfl, rfl⟩
    | some (.bool b) => exact ⟨rfl, rfl⟩
    | some (.num q) => exact ⟨rfl, rfl⟩
    | some (.str s) => exact absurd rfl (hs s)
    | some (.arr elems) => exact absurd rfl (ha elems)
    | some (.obj fs) => exact ⟨rfl, rfl⟩

theorem claim_C4_witness :
    toArrayStrings (some (.arr [.str " a ".data, .str [], .num 5]))
      = ["a".data, "5".data] ∧
    aiCoerce (some (.str "x\n y ".data)) = ["x".data, "y".data] := by
  constructor
  · exact ((claim_C4_amended (some (.arr [.str " a ".data, .str [], .num 5]))).1
      [.str " a ".data, .str [], .num 5] rfl).1.trans (by rfl)
  · exact ((claim_C4_amended (some (.str "x\n y ".data))).2.1
      "x\n y ".data rfl).2.trans (by rfl)

/-! ## Claim C3: suggestion coercion and aggregate confidence -/

/-- C3 counterexample: in the emitted POST response (behavior path), the
normalizer's `toArrayStrings` stringifies the object entry of
`suggestions = ["x", {text:"y", confidence:0.5}]` to `"[object Object]"`
*before* `ensureSuggestionObjects` runs, so the emitted normalized
suggestions are not the claimed pair and the aggregate confidence is
`null`, not `0.5` (the general path likewise yields `null`). -/
theorem claim_C3_counterexample :
    behaviorEnvelopeSuggestions (.obj [("suggestions".data,
        .arr [.str "x".data, .obj [("text".data, .str "y".data),
          ("confidence".data, .num (1/2))]])])
      = [{ text := .str "x".data, rationale := .str [], confidence := none },
         { text := .str "[object Object]".data, rationale := .str [], confidence := none }] ∧
    behaviorConfidenceOverall (.obj [("suggestions".data,
        .arr [.str "x".data, .obj [("text".data, .str "y".data),
          ("confidence".data, .num (1/2))]])]) = .null ∧
    generalConfidenceOverall (.obj [("suggestions".data,
        .arr [.str "x".data, .obj [("text".data, .str "y".data),
          ("confidence".data, .num (1/2))]])]) = .null ∧
    JSON.null ≠ .num (1/2) := by
  refine ⟨by rfl, by rfl, by rfl, by simp⟩

/-- C3 amended: the suggestion-coercion component itself does map
`["x", {text:"y", confidence:0.5}]` to the claimed entries, and the
envelope aggregate over a coerced suggestion list is the arithmetic mean
of the non-null confidences when any exist, else the model-reported
overall confidence when truthy, else null — but in the POST flow the
normalizers stringify entries first, so this composite result never
reaches the response for object-shaped suggestions. -/
theorem claim_C3_amended (l : List SuggestionEntry) (metaConf : Option JSON) :
    ensureSuggestionObjects (some (.arr [.str "x".data,
        .obj [("text".data, .str "y".data), ("confidence".data, .num (1/2))]]))
      = [{ text := .str "x".data, rationale := .str [], confidence := none },
         { text := .str "y".data, rationale := .str [], confidence := some (1/2) }] ∧
    confidenceOverallOf
      [{ text := .str "x".data, rationale := .str [], confidence := none },
       { text := .str "y".data, rationale := .str [], confidence := some (1/2) }]
      (some .null) = .num (1/2) ∧
    (l.filterMap (fun s => s.confidence) ≠ [] →
      confidenceOverallOf l metaConf =
        .num ((l.filterMap (fun s => s.confidence)).sum /
          ((l.filterMap (fun s => s.confidence)).length : Rat))) ∧
    (l.filterMap (fun s => s.confidence) = [] →
      confidenceOverallOf l metaConf =
        (if jsTruthyO metaConf then metaConf.getD .null else .null)) := by
  refine ⟨by rfl, ?_, fun h => ?_, fun h => ?_⟩
  · unfold confidenceOverallOf
    simp only [List.filterMap_cons, List.filterMap_nil]
    norm_num
  · unfold confidenceOverallOf
    rw [if_neg h]
  · unfold confidenceOverallOf
    rw [if_pos h]

theorem claim_C3_witness :
    confidenceOverallOf
      [{ text := .str "x".data, rationale := .str [], confidence := none },
       { text := .str "y".data, rationale := .str [], confidence := some (1/2) }]
      (some .null) = .num ((1:Rat)/2) := by
  have h := (claim_C3_amended
    [{ text := .str "x".data, rationale := .str [], confidence := none },
     { text := .str "y".data, rationale := .str [], confidence := some (1/2) }]
    (some .null)).2.2.1 (by decide)
  rw [h]
  congr 1
  simp only [List.filterMap_cons, List.filterMap_nil]
  norm_num

/-! ## Claim C1: heuristic antecedent/consequence recovery -/

theorem mem_firstDedupAux_of_mem {seen l : List Str} {x : Str}
    (hx : x ∈ l) (hs : x ∉ seen) : x ∈ firstDedupAux seen l := by
  induction l generalizing seen with
  | nil => cases hx
  | cons y ys ih =>
    by_cases hy : y ∈ seen
    · simp only [firstDedupAux, if_pos hy]
      rcases List.mem_cons.1 hx with rfl | hx'
      · exact absurd hy hs
      · exact ih hx' hs
    · simp only [firstDedupAux, if_neg hy]
      rcases List.mem_cons.1 hx with rfl | hx'
      · exact List.mem_cons_self _ _
      · by_cases hxy : x = y
        · subst hxy; exact List.mem_cons_self _ _
        · refine List.mem_cons_of_mem _ (ih hx' ?_)
          intro hmem
          rcases List.mem_cons.1 hmem with h | h
          · exact hxy h
          · exact hs h

theorem mem_behaviorAllSentences {parsed : JSON} {x : Str}
    (h : x ∈ behaviorAllSentences parsed) : trim x = x ∧ x ≠ [] := by
  unfold behaviorAllSentences at h
  obtain ⟨s, _, hx⟩ := List.mem_flatMap.1 h
  exact mem_splitSentences hx

theorem mem_uniq_of_trimmed {l : List Str} {x : Str}
    (hx : x ∈ l) (htr : ∀ y ∈ l, trim y = y ∧ y ≠ []) : x ∈ uniq l := by
  unfold uniq
  have hmap : l.map trim = l :=
    (List.map_congr_left (fun y hy => (htr y hy).1)).trans l.map_id
  rw [hmap]
  have hfil : l.filter (fun s => s ≠ []) = l := by
    apply List.filter_eq_self.2
    intro y hy
    simpa using (htr y hy).2
  rw [hfil]
  exact mem_firstDedupAux_of_mem hx (by simp)

/-- C1. Heuristic recovery: for an object input whose primary
`antecedents` (resp. `consequences`) extraction is empty and whose
depth-first sentence mining yields at least one keyword-tagged sentence,
the output field is exactly those candidate sentences (passed through the
final first-occurrence dedup pass), and every candidate sentence does
appear in the output; on the concrete parsed object with only
`summary = "الطفل يلعب قبل الأذان ثم يتجاهل النداء"`, the whole summary —
the sentence tagged by the keyword "قبل" — is the output `antecedents`
list. Keywords are matched as substrings of the lowercased sentence; the
fixed keyword lists are caseless Arabic, so this is case-insensitive
matching. -/
theorem claim_C1 (parsed : JSON) (fb : Str) (hobj : isObjectLike parsed = true) :
    (behaviorPrimaryAntecedents parsed = [] → antecedentCandidates parsed ≠ [] →
      (normalizeBehavior parsed fb).antecedents = uniq (antecedentCandidates parsed) ∧
      ∀ s ∈ antecedentCandidates parsed, s ∈ (normalizeBehavior parsed fb).antecedents) ∧
    (behaviorPrimaryConsequences parsed = [] → consequenceCandidates parsed ≠ [] →
      (normalizeBehavior parsed fb).consequences = uniq (consequenceCandidates parsed) ∧
      ∀ s ∈ consequenceCandidates parsed, s ∈ (normalizeBehavior parsed fb).consequences) ∧
    (normalizeBehavior (.obj [("summary".data,
        .str "الطفل يلعب قبل الأذان ثم يتجاهل النداء".data)]) []).antecedents
      = ["الطفل يلعب قبل الأذان ثم يتجاهل النداء".data] := by
  have hcandtr : ∀ K x, x ∈ (behaviorAllSentences parsed).filter
      (fun s => containsKeyword s K) → trim x = x ∧ x ≠ [] := by
    intro K x hx
    exact mem_behaviorAllSentences (List.mem_of_mem_filter hx)
  refine ⟨fun hprim hcand => ?_, fun hprim hcand => ?_, by rfl⟩
  · have hfield : (normalizeBehavior parsed fb).antecedents
        = uniq (behaviorAntecedents1 parsed) := by
      rw [normalizeBehavior, if_neg (by simp [hobj])]
    have h1 : behaviorAntecedents1 parsed = antecedentCandidates parsed := by
      unfold behaviorAntecedents1
      rw [if_pos hprim]
      simp only [if_pos hcand]
    rw [hfield, h1]
    exact ⟨rfl, fun s hs =>
      mem_uniq_of_trimmed hs (fun y hy => hcandtr antecedentKeywords y hy)⟩
  · have hfield : (normalizeBehavior parsed fb).consequences
        = uniq (behaviorConsequences2 parsed) := by
      rw [normalizeBehavior, if_neg (by simp [hobj])]
    have h1 : behaviorConsequences1 parsed = consequenceCandidates parsed := by
      unfold behaviorConsequences1
      rw [if_pos hprim]
      simp only [if_pos hcand]
    have h2 : behaviorConsequences2 parsed = consequenceCandidates parsed := by
      unfold behaviorConsequences2
      rw [if_neg (by rw [h1]; exact fun hc => hcand hc.1)]
      exact h1
    rw [hfield, h2]
    exact ⟨rfl, fun s hs =>
      mem_uniq_of_trimmed hs (fun y hy => hcandtr consequenceKeywords y hy)⟩

theorem claim_C1_witness :
    (normalizeBehavior (.obj [("summary".data,
        .str "الطفل يلعب قبل الأذان ثم يتجاهل النداء".data)]) []).antecedents
      = uniq (antecedentCandidates (.obj [("summary".data,
        .str "الطفل يلعب قبل الأذان ثم يتجاهل النداء".data)])) :=
  ((claim_C1 (.obj [("summary".data,
      .str "الطفل يلعب قبل الأذان ثم يتجاهل النداء".data)]) [] rfl).1
    (by rfl) (by decide)).1

/-! ## Claim C8: the JSON extractor -/

/-- C8. `safeParseJSON` first attempts a direct parse and returns its
result on success; on failure it parses exactly the greedy
brace-delimited span (first `\x7b` to last `\x7d`) when one exists and
returns that attempt's result (possibly `null`), with no further retry;
and on the concrete prose-wrapped input it recovers the embedded
`{summary: "ok"}` object. -/
theorem claim_C8 :
    (∀ (raw : Str) (v : JSON), jsonParse raw = some v → safeParseJSON raw = some v) ∧
    (∀ raw : Str, jsonParse raw = none →
      safeParseJSON raw = (bracedSpan raw).bind jsonParse) ∧
    safeParseJSON "here is your answer: \x7b\"summary\":\"ok\"\x7d thanks".data
      = some (.obj [("summary".data, .str "ok".data)]) := by
  refine ⟨fun raw v h => ?_, fun raw h => ?_, by rfl⟩
  · have hne : raw ≠ [] := by
      intro hnil
      rw [hnil] at h
      cases h
    unfold safeParseJSON
    rw [if_neg hne, h]
  · by_cases hne : raw = []
    · subst hne
      rfl
    · unfold safeParseJSON
      rw [if_neg hne, h]
      cases bracedSpan raw <;> rfl

theorem claim_C8_witness :
    safeParseJSON "\x7b\"a\":[true,null,\"x\"]\x7d".data
      = some (.obj [("a".data, .arr [.bool true, .null, .str "x".data])]) :=
  claim_C8.1 "\x7b\"a\":[true,null,\"x\"]\x7d".data
    (.obj [("a".data, .arr [.bool true, .null, .str "x".data])]) (by rfl)

/-! ## Claim C5: dedup law and re-normalization -/

/-- C5 counterexample: a first run through the non-object fallback path
bakes the caller's fallback note into `summary` without running the
heuristic; re-normalizing that output mines the note, so the second run's
`antecedents` is `["قبل"]` where the first run produced `[]` — the second
run does not yield the same elements. -/
theorem claim_C5_counterexample :
    (normalizeBehavior .null "قبل".data).antecedents = [] ∧
    (normalizeBehavior (behaviorPlanToJSON (normalizeBehavior .null "قبل".data))
        []).antecedents = ["قبل".data] ∧
    (["قبل".data] : List Str) ≠ [] := by
  exact ⟨rfl, rfl, by simp⟩

/-! ### Split pieces and substring occurrence -/

theorem splitOnChar_ne_nil (p : Char → Bool) (l : Str) : splitOnChar p l ≠ [] := by
  cases l with
  | nil => simp [splitOnChar]
  | cons c cs =>
    unfold splitOnChar
    cases h : splitOnChar p cs with
    | nil => simp
    | cons a t =>
      by_cases hp : p c <;> simp [hp]

/-- The first split piece is the maximal separator-free prefix. -/
theorem splitOnChar_head (p : Char → Bool) (l : Str) :
    (splitOnChar p l).head? = some (l.takeWhile (fun c => ! p c)) := by
  induction l with
  | nil => simp [splitOnChar]
  | cons c cs ih =>
    unfold splitOnChar
    cases h : splitOnChar p cs with
    | nil => exact absurd h (splitOnChar_ne_nil p cs)
    | cons a t =>
      rw [h] at ih
      simp only [List.head?_cons, Option.some.injEq] at ih
      by_cases hp : p c
      · simp [hp, List.takeWhile_cons]
      · simp [hp, List.takeWhile_cons, ih]

theorem splitOnChar_cons_eq (p : Char → Bool) (c : Char) (cs : Str) {a : Str}
    {t : List Str} (hs : splitOnChar p cs = a :: t) :
    splitOnChar p (c :: cs) = if p c then [] :: a :: t else (c :: a) :: t := by
  unfold splitOnChar
  rw [hs]

theorem infix_of_mem_splitOnChar {p : Char → Bool} {l piece : Str}
    (h : piece ∈ splitOnChar p l) : piece <:+: l := by
  induction l generalizing piece with
  | nil =>
    simp [splitOnChar] at h
    simp [h]
  | cons c cs ih =>
    cases hs : splitOnChar p cs with
    | nil => exact absurd hs (splitOnChar_ne_nil p cs)
    | cons a t =>
      rw [splitOnChar_cons_eq p c cs hs] at h
      by_cases hp : p c
      · rw [if_pos hp] at h
        rcases List.mem_cons.1 h with rfl | h'
        · exact List.nil_infix
        · have hmem : piece ∈ splitOnChar p cs := hs ▸ h'
          exact (ih hmem).trans (List.infix_cons List.infix_rfl)
      · rw [if_neg hp] at h
        rcases List.mem_cons.1 h with rfl | h'
        · have ha : a = cs.takeWhile (fun x => ! p x) := by
            have hh := splitOnChar_head p cs
            rw [hs] at hh
            simpa using hh
          have hpre : a <+: cs := ha ▸ List.takeWhile_prefix _
          obtain ⟨t2, ht2⟩ := hpre
          exact ⟨[], t2, by simp [ht2]⟩
        · have hmem : piece ∈ splitOnChar p cs := hs ▸ List.mem_cons_of_mem a h'
          exact (ih hmem).trans (List.infix_cons List.infix_rfl)

/-- A separator-free prefix lies within the first split piece. -/
theorem prefix_splitOnChar_head {p : Char → Bool} {k l a : Str} {t : List Str}
    (hk : ∀ c ∈ k, ¬ p c) (hpre : k <+: l) (hs : splitOnChar p l = a :: t) :
    k <+: a := by
  induction k generalizing l a t with
  | nil => exact List.nil_prefix
  | cons d k' ih =>
    obtain ⟨rest, hrest⟩ := hpre
    cases l with
    | nil => cases hrest
    | cons c l' =>
      have hdc : d = c := by
        injection hrest with h1 _
      subst hdc
      have hpd : ¬ p d := hk d (List.mem_cons_self _ _)
      cases hs' : splitOnChar p l' with
      | nil => exact absurd hs' (splitOnChar_ne_nil p l')
      | cons a' t' =>
        rw [splitOnChar_cons_eq p d l' hs', if_neg hpd] at hs
        injection hs with ha _
        subst ha
        have hk' : k' <+: l' := by
          refine ⟨rest, ?_⟩
          injection hrest
        obtain ⟨r, hr⟩ := ih (fun c hc => hk c (List.mem_cons_of_mem _ hc)) hk' hs'
        exact ⟨r, by rw [List.cons_append, hr]⟩

/-- Completeness: a non-empty separator-free substring occurrence lies
entirely within one split piece. -/
theorem infix_splitOnChar {p : Char → Bool} {k l : Str}
    (hne : k ≠ []) (hk : ∀ c ∈ k, ¬ p c) (hinf : k <:+: l) :
    ∃ piece ∈ splitOnChar p l, k <:+: piece := by
  induction l with
  | nil =>
    rw [List.infix_nil] at hinf
    exact absurd hinf hne
  | cons c t ih =>
    rcases List.infix_cons_iff.1 hinf with hpre | hinf'
    · cases hs : splitOnChar p (c :: t) with
      | nil => exact absurd hs (splitOnChar_ne_nil p (c :: t))
      | cons a rest =>
        exact ⟨a, hs ▸ List.mem_cons_self a rest,
          (prefix_splitOnChar_head hk hpre hs).isInfix⟩
    · obtain ⟨piece, hmem, hin⟩ := ih hinf'
      cases hs : splitOnChar p t with
      | nil => exact absurd hs (splitOnChar_ne_nil p t)
      | cons a t' =>
        rw [hs] at hmem
        by_cases hp : p c
        · refine ⟨piece, ?_, hin⟩
          rw [splitOnChar_cons_eq p c t hs, if_pos hp]
          exact List.mem_cons_of_mem _ hmem
        · rcases List.mem_cons.1 hmem with rfl | hmem'
          · refine ⟨c :: piece, ?_, hin.trans (List.infix_cons List.infix_rfl)⟩
            rw [splitOnChar_cons_eq p c t hs, if_neg hp]
            exact List.mem_cons_self _ _
          · refine ⟨piece, ?_, hin⟩
            rw [splitOnChar_cons_eq p c t hs, if_neg hp]
            exact List.mem_cons_of_mem _ hmem'

/-! ### Trimming and substring occurrence -/

theorem infix_of_trim (s : Str) : trim s <:+: s := by
  unfold trim
  have h1 : s.dropWhile jsIsWs <:+ s := List.dropWhile_suffix _
  have h2 : ((s.dropWhile jsIsWs).reverse.dropWhile jsIsWs).reverse <+:
      s.dropWhile jsIsWs := by
    obtain ⟨t, ht⟩ := List.dropWhile_suffix (l := (s.dropWhile jsIsWs).reverse) (p := jsIsWs)
    refine ⟨t.reverse, ?_⟩
    conv_rhs => rw [← (s.dropWhile jsIsWs).reverse_reverse, ← ht]
    simp
  exact h2.isInfix.trans h1.isInfix

theorem infix_dropWhile_of_head {k l : Str}
    (hinf : k <:+: l) (hne : k ≠ [])
    (hhd : ∀ c, k.head? = some c → ¬ jsIsWs c) :
    k <:+: l.dropWhile jsIsWs := by
  obtain ⟨s, t, rfl⟩ := hinf
  rw [List.append_assoc, List.dropWhile_append]
  by_cases hs : (s.dropWhile jsIsWs).isEmpty
  · rw [if_pos hs, List.dropWhile_append]
    have hk : k.dropWhile jsIsWs = k := dropWhile_eq_self_of_head _ _ hhd
    have hkne : ¬ (k.dropWhile jsIsWs).isEmpty = true := by
      rw [hk]
      simpa [List.isEmpty_iff] using hne
    rw [if_neg hkne, hk]
    exact (List.prefix_append k t).isInfix
  · rw [if_neg hs]
    exact ⟨s.dropWhile jsIsWs, t, by rw [List.append_assoc]⟩

theorem infix_trim_of_ends {k l : Str}
    (hinf : k <:+: l) (hne : k ≠ [])
    (hhd : ∀ c, k.head? = some c → ¬ jsIsWs c)
    (hlast : ∀ c, k.getLast? = some c → ¬ jsIsWs c) :
    k <:+: trim l := by
  unfold trim
  have step1 : k <:+: l.dropWhile jsIsWs := infix_dropWhile_of_head hinf hne hhd
  have hrev : k.reverse <:+: (l.dropWhile jsIsWs).reverse := List.reverse_infix.2 step1
  have hrevne : k.reverse ≠ [] := by simpa using hne
  have hrevhd : ∀ c, k.reverse.head? = some c → ¬ jsIsWs c := by
    intro c hc
    rw [List.head?_reverse] at hc
    exact hlast c hc
  have step2 : k.reverse <:+: ((l.dropWhile jsIsWs).reverse).dropWhile jsIsWs :=
    infix_dropWhile_of_head hrev hrevne hrevhd
  have := List.reverse_infix.2 step2
  simpa using this

/-! ### Lowercasing commutes with splitting and trimming -/

theorem lowerTable_classes :
    ∀ p ∈ lowerTable, jsIsWs p.2 = jsIsWs p.1 ∧ isSentSep p.2 = isSentSep p.1 := by
  decide

theorem toLowerCh_ws (c : Char) : jsIsWs (toLowerCh c) = jsIsWs c := by
  unfold toLowerCh
  cases hf : lowerTable.find? (fun p => p.1 == c) with
  | none => rfl
  | some p =>
    have hmem := List.mem_of_find?_eq_some hf
    have hpc : p.1 = c := by
      have := List.find?_some hf
      simpa using this
    rw [← hpc]
    exact (lowerTable_classes p hmem).1

theorem toLowerCh_sep (c : Char) : isSentSep (toLowerCh c) = isSentSep c := by
  unfold toLowerCh
  cases hf : lowerTable.find? (fun p => p.1 == c) with
  | none => rfl
  | some p =>
    have hmem := List.mem_of_find?_eq_some hf
    have hpc : p.1 = c := by
      have := List.find?_some hf
      simpa using this
    rw [← hpc]
    exact (lowerTable_classes p hmem).2

theorem dropWhile_lowerStr (l : Str) :
    (lowerStr l).dropWhile jsIsWs = lowerStr (l.dropWhile jsIsWs) := by
  induction l with
  | nil => rfl
  | cons c cs ih =>
    show (toLowerCh c :: lowerStr cs).dropWhile jsIsWs = _
    rw [List.dropWhile_cons, List.dropWhile_cons, toLowerCh_ws]
    by_cases h : jsIsWs c
    · simp only [h, if_true]
      exact ih
    · simp only [h, Bool.false_eq_true, if_false]
      rfl

theorem lowerStr_reverse (l : Str) : (lowerStr l).reverse = lowerStr l.reverse := by
  simp [lowerStr, List.map_reverse]

theorem trim_lowerStr (l : Str) : trim (lowerStr l) = lowerStr (trim l) := by
  unfold trim
  rw [dropWhile_lowerStr, lowerStr_reverse, dropWhile_lowerStr, lowerStr_reverse]

theorem splitOnChar_lowerStr (l : Str) :
    splitOnChar isSentSep (lowerStr l) = (splitOnChar isSentSep l).map lowerStr := by
  induction l with
  | nil => rfl
  | cons c cs ih =>
    cases hs : splitOnChar isSentSep cs with
    | nil => exact absurd hs (splitOnChar_ne_nil _ cs)
    | cons a t =>
      have hls : splitOnChar isSentSep (lowerStr cs) = lowerStr a :: t.map lowerStr := by
        rw [ih, hs]
        rfl
      have hcons := splitOnChar_cons_eq isSentSep (toLowerCh c) (lowerStr cs) hls
      have : lowerStr (c :: cs) = toLowerCh c :: lowerStr cs := rfl
      rw [this, hcons, splitOnChar_cons_eq isSentSep c cs hs, toLowerCh_sep]
      by_cases hp : isSentSep c
      · simp [hp, lowerStr]
      · simp [hp, lowerStr]

/-! ### Keyword side conditions and the occurrence characterization -/


theorem kwOK_ne_nil {k : Str} (h : kwOK k = true) : k ≠ [] := by
  unfold kwOK at h
  simp only [Bool.and_eq_true, decide_eq_true_eq] at h
  exact h.1.1.1.1.1

theorem kwOK_sep {k : Str} (h : kwOK k = true) : ∀ c ∈ k, ¬ isSentSep c := by
  unfold kwOK at h
  simp only [Bool.and_eq_true, decide_eq_true_eq, List.all_eq_true] at h
  intro c hc
  simpa using h.1.1.1.1.2 c hc

theorem kwOK_head {k : Str} (h : kwOK k = true) :
    ∀ c, k.head? = some c → ¬ jsIsWs c := by
  unfold kwOK at h
  simp only [Bool.and_eq_true] at h
  have := h.1.1.1.2
  intro c hc
  rw [hc] at this
  simpa using this

theorem kwOK_last {k : Str} (h : kwOK k = true) :
    ∀ c, k.getLast? = some c → ¬ jsIsWs c := by
  unfold kwOK at h
  simp only [Bool.and_eq_true] at h
  have := h.1.1.2
  intro c hc
  rw [hc] at this
  simpa using this

theorem kwOK_comma {k : Str} (h : kwOK k = true) : ',' ∉ k := by
  unfold kwOK at h
  simp only [Bool.and_eq_true] at h
  have := h.1.2
  intro hc
  rw [Bool.not_eq_true', ← Bool.not_eq_true] at this
  exact this (List.contains_eq_any_beq k ',' ▸ List.any_eq_true.2 ⟨',', hc, by simp⟩)

theorem kwOK_nonascii {k : Str} (h : kwOK k = true) : ∃ c ∈ k, 128 ≤ c.toNat := by
  unfold kwOK at h
  simp only [Bool.and_eq_true, List.any_eq_true] at h
  obtain ⟨c, hc, hv⟩ := h.2
  exact ⟨c, hc, by simpa using hv⟩

/-- A keyword occurs in the lowercased string iff it occurs in some
lowercased sentence of the string. -/
theorem keyword_infix_iff {k s : Str} (hk : kwOK k = true) :
    (k <:+: lowerStr s) ↔ ∃ u ∈ splitSentences s, k <:+: lowerStr u := by
  constructor
  · intro h
    obtain ⟨piece', hmem', hin'⟩ :=
      infix_splitOnChar (p := isSentSep) (kwOK_ne_nil hk)
        (fun c hc => by simpa using kwOK_sep hk c hc) h
    rw [splitOnChar_lowerStr] at hmem'
    obtain ⟨piece, hmem, rfl⟩ := List.mem_map.1 hmem'
    have hin2 : k <:+: trim (lowerStr piece) :=
      infix_trim_of_ends hin' (kwOK_ne_nil hk) (kwOK_head hk) (kwOK_last hk)
    rw [trim_lowerStr] at hin2
    have hune : trim piece ≠ [] := by
      intro hnil
      rw [hnil] at hin2
      exact (kwOK_ne_nil hk) (List.infix_nil.1 hin2)
    refine ⟨trim piece, ?_, hin2⟩
    unfold splitSentences
    exact List.mem_filter.2 ⟨List.mem_map_of_mem trim hmem, by simpa using hune⟩
  · rintro ⟨u, hu, hin⟩
    unfold splitSentences at hu
    have hmm := List.mem_of_mem_filter hu
    obtain ⟨piece, hmem, rfl⟩ := List.mem_map.1 hmm
    have h1 : trim piece <:+: piece := infix_of_trim piece
    have h2 : piece <:+: s := infix_of_mem_splitOnChar hmem
    exact hin.trans ((h1.trans h2).map toLowerCh)

/-! ### The fixed keyword lists satisfy the side conditions -/

theorem antecedentKeywords_kwOK : ∀ k ∈ antecedentKeywords, kwOK k = true := by decide

theorem consequenceKeywords_kwOK : ∀ k ∈ consequenceKeywords, kwOK k = true := by decide

theorem containsKeyword_true_iff (u : Str) (K : List Str) :
    containsKeyword u K = true ↔ u ≠ [] ∧ ∃ k ∈ K, k <:+: lowerStr u := by
  unfold containsKeyword
  by_cases hu : u = []
  · simp [hu]
  · simp [hu, List.any_eq_true]

/-! ### ASCII strings contain no keyword occurrence -/


theorem noOccStr_of_infix {K : List Str} {s t : Str}
    (hts : t <:+: s) (hs : noOccStr K s) : noOccStr K t := by
  intro k hk hinf
  exact hs k hk (hinf.trans (hts.map toLowerCh))

theorem noOccStr_nil {K : List Str} (hK : ∀ k ∈ K, kwOK k = true) : noOccStr K [] := by
  intro k hk hinf
  exact kwOK_ne_nil (hK k hk) (List.infix_nil.1 hinf)

theorem toLowerCh_ascii {c : Char} (h : c.toNat < 128) : (toLowerCh c).toNat < 128 := by
  unfold toLowerCh
  cases hf : lowerTable.find? (fun p => p.1 == c) with
  | none => exact h
  | some p =>
    have hmem := List.mem_of_find?_eq_some hf
    have : ∀ q ∈ lowerTable, q.2.toNat < 128 := by decide
    exact this p hmem

theorem noOccStr_ascii {K : List Str} {s : Str}
    (hK : ∀ k ∈ K, kwOK k = true) (hs : ∀ c ∈ s, c.toNat < 128) : noOccStr K s := by
  intro k hk hinf
  obtain ⟨c, hc, hcv⟩ := kwOK_nonascii (hK k hk)
  have hcin : c ∈ lowerStr s := hinf.subset hc
  obtain ⟨c', hc', rfl⟩ := List.mem_map.1 hcin
  have := toLowerCh_ascii (hs c' hc')
  omega

/-! ### Occurrences split at an absent character -/

theorem prefix_append_cons {k a b : Str} {c : Char}
    (hc : c ∉ k) (h : k <+: a ++ c :: b) : k <+: a := by
  induction k generalizing a with
  | nil => exact List.nil_prefix
  | cons d k' ih =>
    cases a with
    | nil =>
      obtain ⟨t, ht⟩ := h
      injection ht with h1 _
      exact absurd (h1 ▸ List.mem_cons_self d k') hc
    | cons x a' =>
      obtain ⟨t, ht⟩ := h
      injection ht with h1 h2
      subst h1
      have hk' : k' <+: a' ++ c :: b := ⟨t, h2⟩
      obtain ⟨r, hr⟩ := ih (fun hm => hc (List.mem_cons_of_mem _ hm)) hk'
      exact ⟨r, by rw [List.cons_append, hr]⟩

theorem infix_append_cons {k a b : Str} {c : Char}
    (hc : c ∉ k) (h : k <:+: a ++ c :: b) : k <:+: a ∨ k <:+: b := by
  induction a with
  | nil =>
    rcases List.infix_cons_iff.1 h with hpre | hinf
    · cases k with
      | nil => exact Or.inl List.nil_infix
      | cons d k' =>
        obtain ⟨t, ht⟩ := hpre
        injection ht with h1 _
        exact absurd (h1 ▸ List.mem_cons_self d k') hc
    · exact Or.inr hinf
  | cons x a' ih =>
    rcases List.infix_cons_iff.1 h with hpre | hinf
    · exact Or.inl (prefix_append_cons hc hpre).isInfix
    · rcases ih hinf with h' | h'
      · exact Or.inl (h'.trans (List.infix_cons List.infix_rfl))
      · exact Or.inr h'

/-! ### Flattening the collectors -/

theorem collectStringsL_eq (elems : List JSON) :
    collectStringsL elems = elems.flatMap collectStrings := by
  induction elems with
  | nil => rfl
  | cons e es ih => simp [collectStringsL, ih]

theorem collectStringsF_eq (fields : List (Str × JSON)) :
    collectStringsF fields = fields.flatMap (fun p => collectStrings p.2) := by
  induction fields with
  | nil => rfl
  | cons p ps ih =>
    cases p
    simp [collectStringsF, ih]

/-! ### A strong induction principle for the nested JSON type -/

theorem JSON.strongInd (P : JSON → Prop)
    (hnull : P .null) (hbool : ∀ b, P (.bool b)) (hnum : ∀ q, P (.num q))
    (hstr : ∀ s, P (.str s))
    (harr : ∀ elems, (∀ e ∈ elems, P e) → P (.arr elems))
    (hobj : ∀ fields, (∀ p ∈ fields, P p.2) → P (.obj fields)) :
    ∀ v, P v := by
  have key : ∀ (n : Nat) (v : JSON), sizeOf v ≤ n → P v := by
    intro n
    induction n with
    | zero =>
      intro v hv
      cases v <;> simp_arith at hv
    | succ n ih =>
      intro v hv
      match v with
      | .null => exact hnull
      | .bool b => exact hbool b
      | .num q => exact hnum q
      | .str s => exact hstr s
      | .arr elems =>
        refine harr elems (fun e he => ih e ?_)
        have h1 : sizeOf e < sizeOf elems := List.sizeOf_lt_of_mem he
        have h2 : sizeOf (JSON.arr elems) = 1 + sizeOf elems := by simp
        omega
      | .obj fields =>
        refine hobj fields (fun p hp => ih p.2 ?_)
        have h1 : sizeOf p < sizeOf fields := List.sizeOf_lt_of_mem hp
        have h2 : sizeOf (JSON.obj fields) = 1 + sizeOf fields := by simp
        have h3 : sizeOf p = 1 + sizeOf p.1 + sizeOf p.2 := by
          cases p
          simp
        omega
  exact fun v => key (sizeOf v) v le_rfl

/-! ### Number and constant renderings are ASCII -/

theorem digitCh_ascii (d : Nat) : (digitCh d).toNat < 128 := by
  unfold digitCh
  split <;> decide

theorem natToStrAux_ascii : ∀ (fuel n : Nat), ∀ c ∈ natToStrAux fuel n, c.toNat < 128 := by
  intro fuel
  induction fuel with
  | zero => intro n c hc; cases hc
  | succ f ih =>
    intro n c hc
    unfold natToStrAux at hc
    by_cases h : n < 10
    · rw [if_pos h] at hc
      rw [List.mem_singleton] at hc
      subst hc
      exact digitCh_ascii n
    · rw [if_neg h] at hc
      rcases List.mem_append.1 hc with h' | h'
      · exact ih (n / 10) c h'
      · rw [List.mem_singleton] at h'
        subst h'
        exact digitCh_ascii (n % 10)

theorem intToStr_ascii (i : Int) : ∀ c ∈ intToStr i, c.toNat < 128 := by
  cases i with
  | ofNat n => exact natToStrAux_ascii (n + 1) n
  | negSucc n =>
    intro c hc
    rcases List.mem_cons.1 hc with rfl | h'
    · decide
    · exact natToStrAux_ascii _ _ c h'

theorem ratToStr_ascii (q : Rat) : ∀ c ∈ ratToStr q, c.toNat < 128 := by
  unfold ratToStr
  by_cases h : q.den = 1
  · rw [if_pos h]
    exact intToStr_ascii q.num
  · rw [if_neg h]
    intro c hc
    rcases List.mem_append.1 hc with h' | h'
    · exact intToStr_ascii q.num c h'
    · rcases List.mem_cons.1 h' with rfl | h''
      · decide
      · exact natToStrAux_ascii _ _ c h''

/-! ### Keyword occurrences in a stringified value come from its strings -/

theorem infix_join_elems {k : Str} (hck : ',' ∉ k) (hkne : k ≠ []) :
    ∀ elems : List JSON, k <:+: lowerStr (jsJoinElems elems) →
      ∃ e ∈ elems, k <:+: lowerStr (jsToString e) := by
  have helem : ∀ e : JSON, k <:+: lowerStr (jsElemStr e) → k <:+: lowerStr (jsToString e) := by
    intro e h
    cases e with
    | null => exact absurd (List.infix_nil.1 h) hkne
    | bool b => exact h
    | num q => exact h
    | str s => exact h
    | arr l => exact h
    | obj fs => exact h
  have hsingle : ∀ e : JSON, jsJoinElems [e] = jsElemStr e := by
    intro e; cases e <;> rfl
  have hcons : ∀ (e e2 : JSON) (rest : List JSON),
      jsJoinElems (e :: e2 :: rest) = jsElemStr e ++ ',' :: jsJoinElems (e2 :: rest) := by
    intro e e2 rest; cases e <;> rfl
  have hsplit : ∀ a b : Str, lowerStr (a ++ ',' :: b) = lowerStr a ++ ',' :: lowerStr b := by
    intro a b
    unfold lowerStr
    rw [List.map_append, List.map_cons]
    rfl
  intro elems
  induction elems with
  | nil =>
    intro h
    exact absurd (List.infix_nil.1 h) hkne
  | cons e rest ih =>
    intro h
    cases rest with
    | nil =>
      rw [hsingle] at h
      exact ⟨e, List.mem_cons_self _ _, helem e h⟩
    | cons e2 rest2 =>
      rw [hcons, hsplit] at h
      rcases infix_append_cons hck h with h' | h'
      · exact ⟨e, List.mem_cons_self _ _, helem e h'⟩
      · obtain ⟨e', hmem, hocc⟩ := ih h'
        exact ⟨e', List.mem_cons_of_mem _ hmem, hocc⟩

theorem noOccStr_jsToString {K : List Str} (hK : ∀ k ∈ K, kwOK k = true) :
    ∀ v, noOccTree K v → noOccStr K (jsToString v) := by
  refine JSON.strongInd (fun v => noOccTree K v → noOccStr K (jsToString v))
    ?_ ?_ ?_ ?_ ?_ ?_
  · intro _
    exact noOccStr_ascii hK (by decide)
  · intro b _
    cases b
    · exact noOccStr_ascii hK (by decide)
    · exact noOccStr_ascii hK (by decide)
  · intro q _
    exact noOccStr_ascii hK (ratToStr_ascii q)
  · intro s htree
    by_cases hs : s = []
    · subst hs
      exact noOccStr_nil hK
    · refine htree s ?_
      simp [collectStrings, hs]
  · intro elems ihs htree k hk hinf
    obtain ⟨e, hmem, hocc⟩ := infix_join_elems (kwOK_comma (hK k hk)) (kwOK_ne_nil (hK k hk))
      elems hinf
    refine ihs e hmem ?_ k hk hocc
    intro s hsmem
    refine htree s ?_
    show s ∈ collectStrings (JSON.arr elems)
    rw [show collectStrings (JSON.arr elems) = collectStringsL elems from rfl,
      collectStringsL_eq]
    exact List.mem_flatMap.2 ⟨e, hmem, hsmem⟩
  · intro fields _ _
    exact noOccStr_ascii hK
      (show ∀ c ∈ ("[object Object]".data : Str), c.toNat < 128 by decide)

/-! ### Emptiness of the heuristic candidate lists -/

theorem infix_of_splitSentences {s u : Str} (h : u ∈ splitSentences s) : u <:+: s := by
  unfold splitSentences at h
  obtain ⟨piece, hmem, rfl⟩ := List.mem_map.1 (List.mem_of_mem_filter h)
  exact (infix_of_trim piece).trans (infix_of_mem_splitOnChar hmem)

theorem filter_keywords_nil_iff {parsed : JSON} {K : List Str}
    (hK : ∀ k ∈ K, kwOK k = true) :
    ((behaviorAllSentences parsed).filter (fun s => containsKeyword s K) = []) ↔
      noOccTree K parsed := by
  rw [List.filter_eq_nil_iff]
  constructor
  · intro h s hs k hk hinf
    obtain ⟨u, hu, hinfu⟩ := (keyword_infix_iff (hK k hk)).1 hinf
    have husent : u ∈ behaviorAllSentences parsed := by
      unfold behaviorAllSentences
      exact List.mem_flatMap.2 ⟨s, hs, hu⟩
    refine h u husent ?_
    simp only [containsKeyword_true_iff]
    exact ⟨(mem_splitSentences hu).2, k, hk, hinfu⟩
  · intro h u hu hck
    rw [containsKeyword_true_iff] at hck
    obtain ⟨_, k, hk, hinfu⟩ := hck
    obtain ⟨s, hsmem, husent⟩ := List.mem_flatMap.1 hu
    have : k <:+: lowerStr s := (keyword_infix_iff (hK k hk)).2 ⟨u, husent, hinfu⟩
    exact h s hsmem k hk this

/-! ### `noOcc` closure under accessors, coercions and dedup -/


theorem noOccO_none {K : List Str} : noOccO K none := by
  intro v hv
  cases hv

theorem noOccO_jsOr {K : List Str} {a b : Option JSON}
    (ha : noOccO K a) (hb : noOccO K b) : noOccO K (jsOr a b) := by
  unfold jsOr
  by_cases h : jsTruthyO a = true
  · rwa [if_pos h]
  · rw [if_neg h]
    exact hb

theorem noOccO_jsAnd {K : List Str} {a b : Option JSON}
    (ha : noOccO K a) (hb : noOccO K b) : noOccO K (jsAnd a b) := by
  unfold jsAnd
  by_cases h : jsTruthyO a = true
  · rw [if_pos h]
    exact hb
  · rwa [if_neg h]

theorem noOccTree_str {K : List Str} {s : Str} (h : noOccStr K s) :
    noOccTree K (.str s) := by
  intro t ht
  unfold collectStrings at ht
  by_cases hs : s = []
  · rw [if_pos hs] at ht
    cases ht
  · rw [if_neg hs, List.mem_singleton] at ht
    subst ht
    exact h

theorem noOccTree_no_strings {K : List Str} {v : JSON} (h : collectStrings v = []) :
    noOccTree K v := by
  intro t ht
  rw [h] at ht
  cases ht

theorem noOccO_jget {K : List Str} {parsed : JSON} (htree : noOccTree K parsed)
    (k : Str) : noOccO K (jget parsed k) := by
  intro v hv
  match parsed, hv with
  | .obj fields, hv =>
    simp only [jget, getField] at hv
    cases hf : fields.find? (fun p => p.1 == k) with
    | none => rw [hf] at hv; cases hv
    | some p =>
      rw [hf] at hv
      injection hv with hv
      have hmem := List.mem_of_find?_eq_some hf
      intro s hs
      refine htree s ?_
      show s ∈ collectStrings (JSON.obj fields)
      rw [show collectStrings (JSON.obj fields) = collectStringsF fields from rfl,
        collectStringsF_eq]
      have hv2 : p.2 = v := hv
      exact List.mem_flatMap.2 ⟨p, hmem, hv2.symm ▸ hs⟩

theorem noOccO_jgetS {K : List Str} {parsed : JSON} (htree : noOccTree K parsed)
    (k : String) : noOccO K (jgetS parsed k) :=
  noOccO_jget htree k.data

theorem noOccO_jchain {K : List Str} {o : Option JSON} (h : noOccO K o)
    (k : String) : noOccO K (jchain o k) := by
  unfold jchain
  match o, h with
  | none, _ => exact noOccO_none
  | some .null, _ => exact noOccO_none
  | some (.bool b), h => exact noOccO_jgetS (h _ rfl) k
  | some (.num q), h => exact noOccO_jgetS (h _ rfl) k
  | some (.str s), h => exact noOccO_jgetS (h _ rfl) k
  | some (.arr l), h => exact noOccO_jgetS (h _ rfl) k
  | some (.obj fs), h => exact noOccO_jgetS (h _ rfl) k

theorem noOccStr_toArrayStrings {K : List Str} {o : Option JSON}
    (hK : ∀ k ∈ K, kwOK k = true) (h : noOccO K o) :
    ∀ x ∈ toArrayStrings o, noOccStr K x := by
  intro x hx
  match o with
  | some (.arr elems) =>
    simp only [toArrayStrings] at hx
    obtain ⟨y, hymem, rfl⟩ := List.mem_map.1 (List.mem_of_mem_filter hx)
    obtain ⟨e, hmem, rfl⟩ := List.mem_map.1 hymem
    have htree : noOccTree K (.arr elems) := h _ rfl
    have hsubtree : noOccTree K e := by
      intro s hs
      refine htree s ?_
      show s ∈ collectStrings (JSON.arr elems)
      rw [show collectStrings (JSON.arr elems) = collectStringsL elems from rfl,
        collectStringsL_eq]
      exact List.mem_flatMap.2 ⟨e, hmem, hs⟩
    exact noOccStr_of_infix (infix_of_trim _) (noOccStr_jsToString hK e hsubtree)
  | some (.str s) =>
    simp only [toArrayStrings] at hx
    by_cases hs : s = []
    · rw [if_pos hs] at hx
      cases hx
    · rw [if_neg hs] at hx
      have htree : noOccTree K (.str s) := h _ rfl
      have : noOccStr K s := htree s (by simp [collectStrings, hs])
      exact noOccStr_of_infix (infix_of_splitSentences hx) this
  | none => cases hx
  | some .null => cases hx
  | some (.bool b) => cases hx
  | some (.num q) => cases hx
  | some (.obj fs) => cases hx

theorem noOccStr_uniq {K : List Str} {l : List Str}
    (h : ∀ y ∈ l, noOccStr K y) : ∀ x ∈ uniq l, noOccStr K x := by
  intro x hx
  obtain ⟨-, -, hmem⟩ := mem_uniq hx
  obtain ⟨y, hy, rfl⟩ := List.mem_map.1 hmem
  exact noOccStr_of_infix (infix_of_trim y) (h y hy)

/-! ### The serialized plan carries no new keyword occurrences -/

theorem noOccTree_obj {K : List Str} {fields : List (Str × JSON)}
    (h : ∀ p ∈ fields, noOccTree K p.2) : noOccTree K (.obj fields) := by
  intro s hs
  rw [show collectStrings (JSON.obj fields) = collectStringsF fields from rfl,
    collectStringsF_eq] at hs
  obtain ⟨p, hp, hsp⟩ := List.mem_flatMap.1 hs
  exact h p hp s hsp

theorem noOccTree_optFields {K : List Str} {l : List (String × Option JSON)}
    (h : ∀ pr ∈ l, noOccO K pr.2) : ∀ p ∈ optFields l, noOccTree K p.2 := by
  intro p hp
  unfold optFields at hp
  obtain ⟨pr, hpr, hf⟩ := List.mem_filterMap.1 hp
  obtain ⟨x, hx, hpx⟩ := Option.map_eq_some'.1 hf
  have : p.2 = x := by rw [← hpx]
  rw [this]
  exact h pr hpr x hx

theorem noOccTree_arr_strs {K : List Str} {l : List Str}
    (h : ∀ x ∈ l, noOccStr K x) : noOccTree K (.arr (l.map .str)) := by
  intro s hs
  rw [show collectStrings (JSON.arr (l.map .str)) = collectStringsL (l.map .str) from rfl,
    collectStringsL_eq] at hs
  obtain ⟨e, he, hse⟩ := List.mem_flatMap.1 hs
  obtain ⟨x, hx, rfl⟩ := List.mem_map.1 he
  have := noOccTree_str (h x hx)
  exact this s hse

theorem noOccO_strLit {K : List Str} {s : Str} (h : noOccStr K s) :
    noOccO K (some (.str s)) := by
  intro v hv
  injection hv with hv
  exact hv ▸ noOccTree_str h

theorem noOccO_numLit {K : List Str} (q : Rat) : noOccO K (some (.num q)) := by
  intro v hv
  injection hv with hv
  exact hv ▸ noOccTree_no_strings rfl

theorem noOccO_nullLit {K : List Str} : noOccO K (some .null) := by
  intro v hv
  injection hv with hv
  exact hv ▸ noOccTree_no_strings rfl

theorem noOccTree_optFields1 {K : List Str} {k1 : String} {o1 : Option JSON}
    (h1 : noOccO K o1) : ∀ p ∈ optFields [(k1, o1)], noOccTree K p.2 := by
  refine noOccTree_optFields ?_
  intro pr hpr
  rcases List.mem_cons.1 hpr with rfl | hpr
  · exact h1
  · cases hpr

theorem noOccTree_optFields2 {K : List Str} {k1 k2 : String} {o1 o2 : Option JSON}
    (h1 : noOccO K o1) (h2 : noOccO K o2) :
    ∀ p ∈ optFields [(k1, o1), (k2, o2)], noOccTree K p.2 := by
  refine noOccTree_optFields ?_
  intro pr hpr
  rcases List.mem_cons.1 hpr with rfl | hpr
  · exact h1
  · rcases List.mem_cons.1 hpr with rfl | hpr
    · exact h2
    · cases hpr

/-- A behavior plan whose fields are free of keyword occurrences
serializes to a JSON tree free of keyword occurrences. -/
theorem noOccTree_toJSON_of_fields {K : List Str} (b : BehaviorPlan)
    (hbg : noOccO K b.behavior_goal) (hsm : noOccO K b.summary)
    (hfa : noOccO K b.function_analysis) (hrs : noOccO K b.replacement_skill)
    (hrm : noOccO K b.replacement_modality) (hdm : noOccO K b.data_metric)
    (hdt : noOccO K b.data_tool) (hrv : noOccO K b.review_after_days)
    (hpi : noOccO K b.parent_instructions) (hmc : noOccO K b.meta_confidence)
    (hmn : noOccO K b.meta_notes)
    (hante : ∀ x ∈ b.antecedents, noOccStr K x)
    (hcons : ∀ x ∈ b.consequences, noOccStr K x)
    (hans : ∀ x ∈ b.antecedent_strategies, noOccStr K x)
    (hcns : ∀ x ∈ b.consequence_strategies, noOccStr K x)
    (hsug : ∀ x ∈ b.suggestions, noOccStr K x)
    (hcus : ∀ x ∈ b.customizations, noOccStr K x) :
    noOccTree K (behaviorPlanToJSON b) := by
  unfold behaviorPlanToJSON
  refine noOccTree_obj ?_
  intro p hp
  simp only [List.append_assoc, List.mem_append] at hp
  rcases hp with hp | hp | hp | hp | hp | hp | hp | hp
  · exact noOccTree_optFields2 hbg hsm p hp
  · rcases List.mem_cons.1 hp with rfl | hp
    · exact noOccTree_arr_strs hante
    · rcases List.mem_cons.1 hp with rfl | hp
      · exact noOccTree_arr_strs hcons
      · cases hp
  · exact noOccTree_optFields1 hfa p hp
  · rcases List.mem_cons.1 hp with rfl | hp
    · exact noOccTree_arr_strs hans
    · rcases List.mem_cons.1 hp with rfl | hp
      · exact noOccTree_obj (noOccTree_optFields2 hrs hrm)
      · rcases List.mem_cons.1 hp with rfl | hp
        · exact noOccTree_arr_strs hcns
        · rcases List.mem_cons.1 hp with rfl | hp
          · exact noOccTree_obj (noOccTree_optFields2 hdm hdt)
          · cases hp
  · exact noOccTree_optFields1 hrv p hp
  · rcases List.mem_cons.1 hp with rfl | hp
    · exact noOccTree_no_strings rfl
    · rcases List.mem_cons.1 hp with rfl | hp
      · exact noOccTree_arr_strs hsug
      · rcases List.mem_cons.1 hp with rfl | hp
        · exact noOccTree_arr_strs hcus
        · cases hp
  · exact noOccTree_optFields1 hpi p hp
  · rcases List.mem_cons.1 hp with rfl | hp
    · exact noOccTree_obj (noOccTree_optFields2 hmc hmn)
    · cases hp

theorem noOccStr_splitSentencesJS {K : List Str} {o : Option JSON}
    (h : noOccO K o) :
    ∀ x ∈ splitSentencesJS o, noOccStr K x := by
  intro x hx
  match o with
  | some (.str s) =>
    simp only [splitSentencesJS] at hx
    by_cases hs : s = []
    · rw [if_pos hs] at hx
      cases hx
    · rw [if_neg hs] at hx
      have htree : noOccTree K (.str s) := h _ rfl
      have hss : noOccStr K s := htree s (by simp [collectStrings, hs])
      exact noOccStr_of_infix (infix_of_splitSentences hx) hss
  | none => cases hx
  | some .null => cases hx
  | some (.bool b) => cases hx
  | some (.num q) => cases hx
  | some (.arr l) => cases hx
  | some (.obj fs) => cases hx

theorem noOccStr_candidates {K K' : List Str} {parsed : JSON}
    (htree : noOccTree K parsed) :
    ∀ x ∈ (behaviorAllSentences parsed).filter (fun s => containsKeyword s K'),
      noOccStr K x := by
  intro x hx
  obtain ⟨s, hsmem, hsent⟩ := List.mem_flatMap.1 (List.mem_of_mem_filter hx)
  exact noOccStr_of_infix (infix_of_splitSentences hsent) (htree s hsmem)

/-- No keyword of a well-formed keyword list occurs anywhere in the
serialized output of `normalizeBehavior` on an object input whose own
tree is free of occurrences: every string of the output is derived from
the input tree by trimming, splitting and stringification, or is an
ASCII constant. -/
theorem noOccTree_normalizeBehavior {K : List Str} (hK : ∀ k ∈ K, kwOK k = true)
    (parsed : JSON) (fb : Str) (hobj : isObjectLike parsed = true)
    (htree : noOccTree K parsed) :
    noOccTree K (behaviorPlanToJSON (normalizeBehavior parsed fb)) := by
  have hnil : noOccO K (some (.str [])) := noOccO_strLit (noOccStr_nil hK)
  have hg : ∀ k : String, noOccO K (jgetS parsed k) := fun k => noOccO_jgetS htree k
  have hch : ∀ (k k' : String), noOccO K (jchain (jgetS parsed k) k') :=
    fun k k' => noOccO_jchain (hg k) k'
  have hreplace : noOccO K (behaviorReplacementVal parsed).1 ∧
      noOccO K (behaviorReplacementVal parsed).2 := by
    unfold behaviorReplacementVal
    cases hrb : jgetS parsed "replacement_behavior" with
    | none =>
      exact ⟨noOccO_jsOr (hg _) (noOccO_jsOr (hg _) hnil), noOccO_jsOr (hg _) hnil⟩
    | some v =>
      match v with
      | .obj fs =>
        have htfs : noOccTree K (.obj fs) := hg "replacement_behavior" _ hrb
        exact ⟨noOccO_jsOr (noOccO_jget htfs _) (noOccO_jsOr (noOccO_jget htfs _)
            (noOccO_jsOr (noOccO_jget htfs _) hnil)),
          noOccO_jsOr (noOccO_jget htfs _) (noOccO_jsOr (noOccO_jget htfs _) hnil)⟩
      | .arr l => exact ⟨hnil, hnil⟩
      | .str s =>
        have hts : noOccStr K s := by
          by_cases hs : s = []
          · exact hs ▸ noOccStr_nil hK
          · exact (hg "replacement_behavior" _ hrb) s (by simp [collectStrings, hs])
        have hparts : ∀ x ∈ ((splitOnChar isRepSep s).map trim).filter
            (fun p => p ≠ []), noOccStr K x := by
          intro x hx
          obtain ⟨piece, hmem, rfl⟩ := List.mem_map.1 (List.mem_of_mem_filter hx)
          exact noOccStr_of_infix ((infix_of_trim piece).trans (infix_of_mem_splitOnChar hmem)) hts
        constructor
        · refine noOccO_strLit ?_
          cases hp : ((splitOnChar isRepSep s).map trim).filter (fun p => p ≠ []) with
          | nil => exact hts
          | cons p0 rest => exact hparts p0 (hp ▸ List.mem_cons_self _ _)
        · refine noOccO_strLit ?_
          cases hp : ((splitOnChar isRepSep s).map trim).filter (fun p => p ≠ []) with
          | nil => exact noOccStr_nil hK
          | cons p0 rest =>
            cases rest with
            | nil => exact noOccStr_nil hK
            | cons p1 rest2 =>
              exact hparts p1 (hp ▸ List.mem_cons_of_mem _ (List.mem_cons_self _ _))
      | .null => exact ⟨noOccO_jsOr (hg _) (noOccO_jsOr (hg _) hnil), noOccO_jsOr (hg _) hnil⟩
      | .bool b => exact ⟨noOccO_jsOr (hg _) (noOccO_jsOr (hg _) hnil), noOccO_jsOr (hg _) hnil⟩
      | .num q => exact ⟨noOccO_jsOr (hg _) (noOccO_jsOr (hg _) hnil), noOccO_jsOr (hg _) hnil⟩
  have hante1 : ∀ x ∈ behaviorAntecedents1 parsed, noOccStr K x := by
    unfold behaviorAntecedents1
    by_cases hp : behaviorPrimaryAntecedents parsed = []
    · rw [if_pos hp]
      by_cases hc : antecedentCandidates parsed ≠ []
      · simp only [if_pos hc]
        exact fun x hx => noOccStr_candidates htree x hx
      · simp only [if_neg hc]
        exact fun x hx => noOccStr_toArrayStrings hK
          (noOccO_jsOr (hg _) (noOccO_jsOr (hg _) (noOccO_jsOr (hg _) (hg _)))) x hx
    · rw [if_neg hp]
      exact fun x hx => noOccStr_toArrayStrings hK
        (noOccO_jsOr (hg _) (noOccO_jsOr (hg _) (noOccO_jsOr (hg _) (hg _)))) x hx
  have hcons2 : ∀ x ∈ behaviorConsequences2 parsed, noOccStr K x := by
    have hcons1 : ∀ x ∈ behaviorConsequences1 parsed, noOccStr K x := by
      unfold behaviorConsequences1
      by_cases hp : behaviorPrimaryConsequences parsed = []
      · rw [if_pos hp]
        by_cases hc : consequenceCandidates parsed ≠ []
        · simp only [if_pos hc]
          exact fun x hx => noOccStr_candidates htree x hx
        · simp only [if_neg hc]
          exact fun x hx => noOccStr_toArrayStrings hK
            (noOccO_jsOr (hg _) (noOccO_jsOr (hg _) (noOccO_jsOr (hg _) (hg _)))) x hx
      · rw [if_neg hp]
        exact fun x hx => noOccStr_toArrayStrings hK
          (noOccO_jsOr (hg _) (noOccO_jsOr (hg _) (noOccO_jsOr (hg _) (hg _)))) x hx
    unfold behaviorConsequences2
    by_cases hcond : behaviorConsequences1 parsed = [] ∧
        jsTruthyO (behaviorSummaryVal parsed) = true
    · rw [if_pos hcond]
      have hsummary : noOccO K (behaviorSummaryVal parsed) :=
        noOccO_jsOr (hg _) (noOccO_jsOr (hg _) (noOccO_jsOr (hg _) (noOccO_jsOr (hg _) hnil)))
      have hsents : ∀ x ∈ (splitSentencesJS (behaviorSummaryVal parsed)).filter
          (fun s => s ≠ []), noOccStr K x := by
        intro x hx
        exact noOccStr_splitSentencesJS hsummary x (List.mem_of_mem_filter hx)
      by_cases hc : ((splitSentencesJS (behaviorSummaryVal parsed)).filter
          (fun s => s ≠ [])).filter (fun s => containsKeyword s consequenceKeywords) ≠ []
      · simp only [if_pos hc]
        exact fun x hx => hsents x (List.mem_of_mem_filter hx)
      · simp only [if_neg hc]
        exact hcons1
    · rw [if_neg hcond]
      exact hcons1
  have hsugg0 : ∀ x ∈ behaviorSuggestions0 parsed, noOccStr K x :=
    fun x hx => noOccStr_toArrayStrings hK
      (noOccO_jsOr (hg _) (noOccO_jsOr (hg _) (hg _))) x hx
  have hcust0 : ∀ x ∈ behaviorCustomizations0 parsed, noOccStr K x :=
    fun x hx => noOccStr_toArrayStrings hK
      (noOccO_jsOr (hg _) (noOccO_jsOr (hg _) (hg _))) x hx
  have hans1 : ∀ x ∈ behaviorAntStrategies1 parsed, noOccStr K x := by
    unfold behaviorAntStrategies1
    by_cases hp : behaviorPrimaryAntStrategies parsed = []
    · rw [if_pos hp]
      intro x hx
      have hx' := List.mem_of_mem_take hx
      by_cases hs : behaviorSuggestions0 parsed ≠ []
      · rw [if_pos hs] at hx'
        exact hsugg0 x hx'
      · rw [if_neg hs] at hx'
        cases hx'
    · rw [if_neg hp]
      exact fun x hx => noOccStr_toArrayStrings hK
        (noOccO_jsOr (hg _) (noOccO_jsOr (hg _) (noOccO_jsOr (hg _)
          (noOccO_jsOr (hg _) (hg _))))) x hx
  have hcns1 : ∀ x ∈ behaviorConStrategies1 parsed, noOccStr K x := by
    unfold behaviorConStrategies1
    by_cases hp : behaviorPrimaryConStrategies parsed = []
    · rw [if_pos hp]
      intro x hx
      have hx' := List.mem_of_mem_take hx
      by_cases hs : behaviorCustomizations0 parsed ≠ []
      · rw [if_pos hs] at hx'
        exact hcust0 x hx'
      · rw [if_neg hs] at hx'
        cases hx'
    · rw [if_neg hp]
      exact fun x hx => noOccStr_toArrayStrings hK
        (noOccO_jsOr (hg _) (noOccO_jsOr (hg _) (noOccO_jsOr (hg _)
          (noOccO_jsOr (hg _) (hg _))))) x hx
  have hB : normalizeBehavior parsed fb =
      { behavior_goal := behaviorGoalVal parsed
        summary := behaviorSummaryVal parsed
        antecedents := uniq (behaviorAntecedents1 parsed)
        consequences := uniq (behaviorConsequences2 parsed)
        function_analysis := behaviorFunctionVal parsed
        antecedent_strategies := uniq (behaviorAntStrategies1 parsed)
        replacement_skill := (behaviorReplacementVal parsed).1
        replacement_modality := (behaviorReplacementVal parsed).2
        consequence_strategies := uniq (behaviorConStrategies1 parsed)
        data_metric := behaviorDataMetric parsed
        data_tool := behaviorDataTool parsed
        review_after_days := behaviorReviewVal parsed
        safety_flag := behaviorSafetyVal parsed
        suggestions := uniq (behaviorSuggestions0 parsed)
        customizations := uniq (behaviorCustomizations0 parsed)
        parent_instructions := behaviorParentVal parsed
        meta_confidence := behaviorMetaConfidence parsed
        meta_notes := behaviorMetaNotes parsed } := by
    rw [normalizeBehavior, if_neg (by simp [hobj])]
  rw [hB]
  exact noOccTree_toJSON_of_fields _
    (noOccO_jsOr (hg _) (noOccO_jsOr (hg _) (noOccO_jsOr (hg _) hnil)))
    (noOccO_jsOr (hg _) (noOccO_jsOr (hg _) (noOccO_jsOr (hg _) (noOccO_jsOr (hg _) hnil))))
    (noOccO_jsOr (hg _) (noOccO_jsOr (hg _) (noOccO_jsOr (hg _) (noOccO_jsOr (hg _) hnil))))
    hreplace.1 hreplace.2
    (noOccO_jsOr (noOccO_jsAnd (hg _) (noOccO_jsOr (hch _ _) (hch _ _)))
      (noOccO_jsOr (hch _ _) (noOccO_jsOr (hg _) hnil)))
    (noOccO_jsOr (noOccO_jsAnd (hg _) (noOccO_jsOr (hch _ _) (hch _ _)))
      (noOccO_jsOr (hch _ _) (noOccO_jsOr (hg _) hnil)))
    (noOccO_jsOr (hg _) (noOccO_jsOr (hch _ _) (noOccO_jsOr (hg _) (noOccO_numLit 14))))
    (noOccO_jsOr (hg _) (noOccO_jsOr (hg _) (noOccO_jsOr (hg _) hnil)))
    (noOccO_jsOr (hg _) (noOccO_jsOr (hg _) noOccO_nullLit))
    (noOccO_jsOr (hg _) (noOccO_jsOr (hg _) hnil))
    (noOccStr_uniq hante1) (noOccStr_uniq hcons2) (noOccStr_uniq hans1)
    (noOccStr_uniq hcns1) (noOccStr_uniq hsugg0) (noOccStr_uniq hcust0)

/-! ### Round-trip computation helpers -/

theorem normalizeBehavior_obj (parsed : JSON) (fb : Str) (hobj : isObjectLike parsed = true) :
    normalizeBehavior parsed fb =
      { behavior_goal := behaviorGoalVal parsed
        summary := behaviorSummaryVal parsed
        antecedents := uniq (behaviorAntecedents1 parsed)
        consequences := uniq (behaviorConsequences2 parsed)
        function_analysis := behaviorFunctionVal parsed
        antecedent_strategies := uniq (behaviorAntStrategies1 parsed)
        replacement_skill := (behaviorReplacementVal parsed).1
        replacement_modality := (behaviorReplacementVal parsed).2
        consequence_strategies := uniq (behaviorConStrategies1 parsed)
        data_metric := behaviorDataMetric parsed
        data_tool := behaviorDataTool parsed
        review_after_days := behaviorReviewVal parsed
        safety_flag := behaviorSafetyVal parsed
        suggestions := uniq (behaviorSuggestions0 parsed)
        customizations := uniq (behaviorCustomizations0 parsed)
        parent_instructions := behaviorParentVal parsed
        meta_confidence := behaviorMetaConfidence parsed
        meta_notes := behaviorMetaNotes parsed } := by
  rw [normalizeBehavior, if_neg (by simp [hobj])]

theorem toArrayStrings_map_str {l : List Str} (h : ∀ x ∈ l, trim x = x ∧ x ≠ []) :
    toArrayStrings (some (.arr (l.map .str))) = l := by
  simp only [toArrayStrings]
  have h1 : (l.map JSON.str).map jsToString = l := by
    rw [List.map_map]
    exact (List.map_congr_left (fun _x _ => rfl)).trans l.map_id
  rw [h1]
  have h2 : l.map trim = l :=
    (List.map_congr_left (fun x hx => (h x hx).1)).trans l.map_id
  rw [h2]
  apply List.filter_eq_self.2
  intro x hx
  simpa using (h x hx).2

theorem toArrayStrings_uniq_roundtrip (l : List Str) :
    toArrayStrings (some (.arr ((uniq l).map .str))) = uniq l :=
  toArrayStrings_map_str (fun _x hx => ⟨(mem_uniq hx).1, (mem_uniq hx).2.1⟩)

theorem uniq_eq_nil {l : List Str} (h : ∀ x ∈ l, trim x = x ∧ x ≠ [])
    (hnil : uniq l = []) : l = [] := by
  cases hl : l with
  | nil => rfl
  | cons x rest =>
    have hx := h x (hl ▸ List.mem_cons_self _ _)
    exact absurd hnil (hl ▸ uniq_ne_nil (List.mem_cons_self x rest) (hx.1.symm ▸ hx.2))

/-- Every element of each pre-dedup stage is trimmed and non-blank. -/
theorem elems_behaviorAntecedents1 (parsed : JSON) :
    ∀ x ∈ behaviorAntecedents1 parsed, trim x = x ∧ x ≠ [] := by
  unfold behaviorAntecedents1
  by_cases hp : behaviorPrimaryAntecedents parsed = []
  · rw [if_pos hp]
    by_cases hc : antecedentCandidates parsed ≠ []
    · simp only [if_pos hc]
      intro x hx
      exact mem_behaviorAllSentences (List.mem_of_mem_filter hx)
    · simp only [if_neg hc]
      exact fun x hx => mem_toArrayStrings hx
  · rw [if_neg hp]
    exact fun x hx => mem_toArrayStrings hx

theorem elems_behaviorConsequences1 (parsed : JSON) :
    ∀ x ∈ behaviorConsequences1 parsed, trim x = x ∧ x ≠ [] := by
  unfold behaviorConsequences1
  by_cases hp : behaviorPrimaryConsequences parsed = []
  · rw [if_pos hp]
    by_cases hc : consequenceCandidates parsed ≠ []
    · simp only [if_pos hc]
      intro x hx
      exact mem_behaviorAllSentences (List.mem_of_mem_filter hx)
    · simp only [if_neg hc]
      exact fun x hx => mem_toArrayStrings hx
  · rw [if_neg hp]
    exact fun x hx => mem_toArrayStrings hx

theorem elems_behaviorConsequences2 (parsed : JSON) :
    ∀ x ∈ behaviorConsequences2 parsed, trim x = x ∧ x ≠ [] := by
  unfold behaviorConsequences2
  by_cases hcond : behaviorConsequences1 parsed = [] ∧
      jsTruthyO (behaviorSummaryVal parsed) = true
  · rw [if_pos hcond]
    by_cases hc : ((splitSentencesJS (behaviorSummaryVal parsed)).filter
        (fun s => s ≠ [])).filter (fun s => containsKeyword s consequenceKeywords) ≠ []
    · simp only [if_pos hc]
      intro x hx
      have hx1 := List.mem_of_mem_filter hx
      have hx2 := List.mem_of_mem_filter hx1
      match hmm : behaviorSummaryVal parsed with
      | some (.str s) =>
        rw [hmm] at hx2
        simp only [splitSentencesJS] at hx2
        by_cases hs : s = []
        · rw [if_pos hs] at hx2; cases hx2
        · rw [if_neg hs] at hx2
          exact mem_splitSentences hx2
      | none => rw [hmm] at hx2; cases hx2
      | some .null => rw [hmm] at hx2; cases hx2
      | some (.bool b) => rw [hmm] at hx2; cases hx2
      | some (.num q) => rw [hmm] at hx2; cases hx2
      | some (.arr l) => rw [hmm] at hx2; cases hx2
      | some (.obj fs) => rw [hmm] at hx2; cases hx2
    · simp only [if_neg hc]
      exact elems_behaviorConsequences1 parsed
  · rw [if_neg hcond]
    exact elems_behaviorConsequences1 parsed

theorem elems_behaviorAntStrategies1 (parsed : JSON) :
    ∀ x ∈ behaviorAntStrategies1 parsed, trim x = x ∧ x ≠ [] := by
  unfold behaviorAntStrategies1
  by_cases hp : behaviorPrimaryAntStrategies parsed = []
  · rw [if_pos hp]
    intro x hx
    have hx' := List.mem_of_mem_take hx
    by_cases hs : behaviorSuggestions0 parsed ≠ []
    · rw [if_pos hs] at hx'
      exact mem_toArrayStrings hx'
    · rw [if_neg hs] at hx'
      cases hx'
  · rw [if_neg hp]
    exact fun x hx => mem_toArrayStrings hx

theorem elems_behaviorConStrategies1 (parsed : JSON) :
    ∀ x ∈ behaviorConStrategies1 parsed, trim x = x ∧ x ≠ [] := by
  unfold behaviorConStrategies1
  by_cases hp : behaviorPrimaryConStrategies parsed = []
  · rw [if_pos hp]
    intro x hx
    have hx' := List.mem_of_mem_take hx
    by_cases hs : behaviorCustomizations0 parsed ≠ []
    · rw [if_pos hs] at hx'
      exact mem_toArrayStrings hx'
    · rw [if_neg hs] at hx'
      cases hx'
  · rw [if_neg hp]
    exact fun x hx => mem_toArrayStrings hx

/-- Sentences drawn from a keyword-free value contain no keyword. -/
theorem summary_candidates_nil {K : List Str} {o : Option JSON}
    (h : noOccO K o) :
    ((splitSentencesJS o).filter (fun s => s ≠ [])).filter
      (fun s => containsKeyword s K) = [] := by
  rw [List.filter_eq_nil_iff]
  intro u hu hck
  rw [containsKeyword_true_iff] at hck
  obtain ⟨-, k, hk, hinf⟩ := hck
  exact noOccStr_splitSentencesJS h u (List.mem_of_mem_filter hu) k hk hinf

/-- Key lookups on the serialized plan (all `Option` fields rewritten to
their values so the field list is structurally concrete): the canonical
keys are present with the expected values, and none of the other alias
keys probed by a second normalization exists. -/
theorem behaviorPlanToJSON_lookups (b : BehaviorPlan)
    {v1 v2 v3 v4 v5 v6 v7 v8 v9 v10 v11 : JSON}
    (h1 : b.behavior_goal = some v1) (h2 : b.summary = some v2)
    (h3 : b.function_analysis = some v3) (h4 : b.replacement_skill = some v4)
    (h5 : b.replacement_modality = some v5) (h6 : b.data_metric = some v6)
    (h7 : b.data_tool = some v7) (h8 : b.review_after_days = some v8)
    (h9 : b.parent_instructions = some v9) (h10 : b.meta_confidence = some v10)
    (h11 : b.meta_notes = some v11) :
    jgetS (behaviorPlanToJSON b) "summary" = some v2 ∧
    jgetS (behaviorPlanToJSON b) "behavior_goal" = some v1 ∧
    jgetS (behaviorPlanToJSON b) "antecedents" = some (.arr (b.antecedents.map .str)) ∧
    jgetS (behaviorPlanToJSON b) "consequences" = some (.arr (b.consequences.map .str)) ∧
    jgetS (behaviorPlanToJSON b) "antecedent_strategies"
      = some (.arr (b.antecedent_strategies.map .str)) ∧
    jgetS (behaviorPlanToJSON b) "consequence_strategies"
      = some (.arr (b.consequence_strategies.map .str)) ∧
    jgetS (behaviorPlanToJSON b) "suggestions" = some (.arr (b.suggestions.map .str)) ∧
    jgetS (behaviorPlanToJSON b) "customizations" = some (.arr (b.customizations.map .str)) ∧
    jgetS (behaviorPlanToJSON b) "smart_goal" = none ∧
    jgetS (behaviorPlanToJSON b) "overview" = none ∧
    jgetS (behaviorPlanToJSON b) "antecedent" = none ∧
    jgetS (behaviorPlanToJSON b) "preceding" = none ∧
    jgetS (behaviorPlanToJSON b) "before" = none ∧
    jgetS (behaviorPlanToJSON b) "consequence" = none ∧
    jgetS (behaviorPlanToJSON b) "following" = none ∧
    jgetS (behaviorPlanToJSON b) "after" = none ∧
    jgetS (behaviorPlanToJSON b) "antecedentStrategies" = none ∧
    jgetS (behaviorPlanToJSON b) "prevention" = none ∧
    jgetS (behaviorPlanToJSON b) "proactive" = none ∧
    jgetS (behaviorPlanToJSON b) "prep" = none ∧
    jgetS (behaviorPlanToJSON b) "consequenceStrategies" = none ∧
    jgetS (behaviorPlanToJSON b) "response_strategies" = none ∧
    jgetS (behaviorPlanToJSON b) "reactive" = none ∧
    jgetS (behaviorPlanToJSON b) "reinforcement" = none ∧
    jgetS (behaviorPlanToJSON b) "recommendations" = none ∧
    jgetS (behaviorPlanToJSON b) "advice" = none ∧
    jgetS (behaviorPlanToJSON b) "tweaks" = none ∧
    jgetS (behaviorPlanToJSON b) "modifications" = none := by
  unfold behaviorPlanToJSON
  rw [h1, h2, h3, h4, h5, h6, h7, h8, h9, h10, h11]
  exact ⟨rfl, rfl, rfl, rfl, rfl, rfl, rfl, rfl, rfl, rfl, rfl, rfl, rfl, rfl,
    rfl, rfl, rfl, rfl, rfl, rfl, rfl, rfl, rfl, rfl, rfl, rfl, rfl, rfl⟩

theorem jsOr_ne_none {a b : Option JSON} (hb : b ≠ none) : jsOr a b ≠ none := by
  unfold jsOr
  by_cases h : jsTruthyO a = true
  · rw [if_pos h]
    match a, h with
    | some v, _ => simp
  · rw [if_neg h]
    exact hb

/-- C5 amended: (1) every array field of the behavior plan is
deduplicated (no duplicates, and a further dedup pass is the identity:
elements are compared by exact equality after trimming with
first-occurrence order preserved); (2) for *object* inputs, running the
normalizer a second time on the (serialized) output yields the same six
array fields with the same elements in the same order. (For non-object
inputs the second run can differ, per the counterexample: the fallback
note baked into `summary` gets keyword-mined only on the second run.) -/
theorem claim_C5_amended (parsed : JSON) (fb fb' : Str) (hobj : isObjectLike parsed = true) :
    ((normalizeBehavior parsed fb).antecedents.Nodup ∧
     (normalizeBehavior parsed fb).consequences.Nodup ∧
     (normalizeBehavior parsed fb).antecedent_strategies.Nodup ∧
     (normalizeBehavior parsed fb).consequence_strategies.Nodup ∧
     (normalizeBehavior parsed fb).suggestions.Nodup ∧
     (normalizeBehavior parsed fb).customizations.Nodup ∧
     uniq (normalizeBehavior parsed fb).antecedents = (normalizeBehavior parsed fb).antecedents ∧
     uniq (normalizeBehavior parsed fb).consequences = (normalizeBehavior parsed fb).consequences ∧
     uniq (normalizeBehavior parsed fb).antecedent_strategies
       = (normalizeBehavior parsed fb).antecedent_strategies ∧
     uniq (normalizeBehavior parsed fb).consequence_strategies
       = (normalizeBehavior parsed fb).consequence_strategies ∧
     uniq (normalizeBehavior parsed fb).suggestions = (normalizeBehavior parsed fb).suggestions ∧
     uniq (normalizeBehavior parsed fb).customizations
       = (normalizeBehavior parsed fb).customizations) ∧
    ((normalizeBehavior (behaviorPlanToJSON (normalizeBehavior parsed fb)) fb').antecedents
       = (normalizeBehavior parsed fb).antecedents ∧
     (normalizeBehavior (behaviorPlanToJSON (normalizeBehavior parsed fb)) fb').consequences
       = (normalizeBehavior parsed fb).consequences ∧
     (normalizeBehavior (behaviorPlanToJSON (normalizeBehavior parsed fb)) fb').antecedent_strategies
       = (normalizeBehavior parsed fb).antecedent_strategies ∧
     (normalizeBehavior (behaviorPlanToJSON (normalizeBehavior parsed fb)) fb').consequence_strategies
       = (normalizeBehavior parsed fb).consequence_strategies ∧
     (normalizeBehavior (behaviorPlanToJSON (normalizeBehavior parsed fb)) fb').suggestions
       = (normalizeBehavior parsed fb).suggestions ∧
     (normalizeBehavior (behaviorPlanToJSON (normalizeBehavior parsed fb)) fb').customizations
       = (normalizeBehavior parsed fb).customizations) := by
  have hB := normalizeBehavior_obj parsed fb hobj
  have pa : (normalizeBehavior parsed fb).antecedents = uniq (behaviorAntecedents1 parsed) := by
    rw [hB]
  have pc : (normalizeBehavior parsed fb).consequences = uniq (behaviorConsequences2 parsed) := by
    rw [hB]
  have pas : (normalizeBehavior parsed fb).antecedent_strategies
      = uniq (behaviorAntStrategies1 parsed) := by rw [hB]
  have pcs : (normalizeBehavior parsed fb).consequence_strategies
      = uniq (behaviorConStrategies1 parsed) := by rw [hB]
  have ps : (normalizeBehavior parsed fb).suggestions = uniq (behaviorSuggestions0 parsed) := by
    rw [hB]
  have pcu : (normalizeBehavior parsed fb).customizations
      = uniq (behaviorCustomizations0 parsed) := by rw [hB]
  refine ⟨⟨?_, ?_, ?_, ?_, ?_, ?_, ?_, ?_, ?_, ?_, ?_, ?_⟩, ?_⟩
  · rw [pa]; exact uniq_nodup _
  · rw [pc]; exact uniq_nodup _
  · rw [pas]; exact uniq_nodup _
  · rw [pcs]; exact uniq_nodup _
  · rw [ps]; exact uniq_nodup _
  · rw [pcu]; exact uniq_nodup _
  · rw [pa]; exact uniq_idem _
  · rw [pc]; exact uniq_idem _
  · rw [pas]; exact uniq_idem _
  · rw [pcs]; exact uniq_idem _
  · rw [ps]; exact uniq_idem _
  · rw [pcu]; exact uniq_idem _
  -- the second-run equalities
  have pbg : (normalizeBehavior parsed fb).behavior_goal = behaviorGoalVal parsed := by rw [hB]
  have psm : (normalizeBehavior parsed fb).summary = behaviorSummaryVal parsed := by rw [hB]
  have pfa : (normalizeBehavior parsed fb).function_analysis = behaviorFunctionVal parsed := by
    rw [hB]
  have prs : (normalizeBehavior parsed fb).replacement_skill
      = (behaviorReplacementVal parsed).1 := by rw [hB]
  have prm : (normalizeBehavior parsed fb).replacement_modality
      = (behaviorReplacementVal parsed).2 := by rw [hB]
  have pdm : (normalizeBehavior parsed fb).data_metric = behaviorDataMetric parsed := by rw [hB]
  have pdt : (normalizeBehavior parsed fb).data_tool = behaviorDataTool parsed := by rw [hB]
  have prv : (normalizeBehavior parsed fb).review_after_days = behaviorReviewVal parsed := by
    rw [hB]
  have ppi : (normalizeBehavior parsed fb).parent_instructions = behaviorParentVal parsed := by
    rw [hB]
  have pmc : (normalizeBehavior parsed fb).meta_confidence
      = behaviorMetaConfidence parsed := by rw [hB]
  have pmn : (normalizeBehavior parsed fb).meta_notes = behaviorMetaNotes parsed := by rw [hB]
  have hnilne : (some (JSON.str []) : Option JSON) ≠ none := by simp
  obtain ⟨v1, hv1⟩ := Option.ne_none_iff_exists'.1
    (show behaviorGoalVal parsed ≠ none from
      jsOr_ne_none (jsOr_ne_none (jsOr_ne_none hnilne)))
  obtain ⟨v2, hv2⟩ := Option.ne_none_iff_exists'.1
    (show behaviorSummaryVal parsed ≠ none from
      jsOr_ne_none (jsOr_ne_none (jsOr_ne_none (jsOr_ne_none hnilne))))
  obtain ⟨v3, hv3⟩ := Option.ne_none_iff_exists'.1
    (show behaviorFunctionVal parsed ≠ none from
      jsOr_ne_none (jsOr_ne_none (jsOr_ne_none (jsOr_ne_none hnilne))))
  obtain ⟨v4, hv4⟩ := Option.ne_none_iff_exists'.1 (goodO_behaviorReplacement parsed).1.1
  obtain ⟨v5, hv5⟩ := Option.ne_none_iff_exists'.1 (goodO_behaviorReplacement parsed).2.1
  obtain ⟨v6, hv6⟩ := Option.ne_none_iff_exists'.1
    (show behaviorDataMetric parsed ≠ none from
      jsOr_ne_none (jsOr_ne_none (jsOr_ne_none hnilne)))
  obtain ⟨v7, hv7⟩ := Option.ne_none_iff_exists'.1
    (show behaviorDataTool parsed ≠ none from
      jsOr_ne_none (jsOr_ne_none (jsOr_ne_none hnilne)))
  obtain ⟨v8, hv8⟩ := Option.ne_none_iff_exists'.1
    (show behaviorReviewVal parsed ≠ none from
      jsOr_ne_none (jsOr_ne_none (jsOr_ne_none (by simp))))
  obtain ⟨v9, hv9⟩ := Option.ne_none_iff_exists'.1
    (show behaviorParentVal parsed ≠ none from
      jsOr_ne_none (jsOr_ne_none (jsOr_ne_none hnilne)))
  obtain ⟨v10, hv10⟩ := Option.ne_none_iff_exists'.1
    (show behaviorMetaConfidence parsed ≠ none from
      jsOr_ne_none (jsOr_ne_none (by simp)))
  obtain ⟨v11, hv11⟩ := Option.ne_none_iff_exists'.1
    (show behaviorMetaNotes parsed ≠ none from
      jsOr_ne_none (jsOr_ne_none hnilne))
  obtain ⟨L1, L2, L3, L4, L5, L6, L7, L8, L9, L10, L11, L12, L13, L14, L15, L16,
      L17, L18, L19, L20, L21, L22, L23, L24, L25, L26, L27, L28⟩ :=
    behaviorPlanToJSON_lookups (normalizeBehavior parsed fb)
      (pbg.trans hv1) (psm.trans hv2) (pfa.trans hv3) (prs.trans hv4) (prm.trans hv5)
      (pdm.trans hv6) (pdt.trans hv7) (prv.trans hv8) (ppi.trans hv9)
      (pmc.trans hv10) (pmn.trans hv11)
  have houtobj : isObjectLike (behaviorPlanToJSON (normalizeBehavior parsed fb)) = true := rfl
  have hB2 := normalizeBehavior_obj (behaviorPlanToJSON (normalizeBehavior parsed fb)) fb' houtobj
  have pa2 : (normalizeBehavior (behaviorPlanToJSON (normalizeBehavior parsed fb)) fb').antecedents
      = uniq (behaviorAntecedents1 (behaviorPlanToJSON (normalizeBehavior parsed fb))) := by
    rw [hB2]
  have pc2 : (normalizeBehavior (behaviorPlanToJSON (normalizeBehavior parsed fb)) fb').consequences
      = uniq (behaviorConsequences2 (behaviorPlanToJSON (normalizeBehavior parsed fb))) := by
    rw [hB2]
  have pas2 : (normalizeBehavior (behaviorPlanToJSON (normalizeBehavior parsed fb)) fb').antecedent_strategies
      = uniq (behaviorAntStrategies1 (behaviorPlanToJSON (normalizeBehavior parsed fb))) := by
    rw [hB2]
  have pcs2 : (normalizeBehavior (behaviorPlanToJSON (normalizeBehavior parsed fb)) fb').consequence_strategies
      = uniq (behaviorConStrategies1 (behaviorPlanToJSON (normalizeBehavior parsed fb))) := by
    rw [hB2]
  have ps2 : (normalizeBehavior (behaviorPlanToJSON (normalizeBehavior parsed fb)) fb').suggestions
      = uniq (behaviorSuggestions0 (behaviorPlanToJSON (normalizeBehavior parsed fb))) := by
    rw [hB2]
  have pcu2 : (normalizeBehavior (behaviorPlanToJSON (normalizeBehavior parsed fb)) fb').customizations
      = uniq (behaviorCustomizations0 (behaviorPlanToJSON (normalizeBehavior parsed fb))) := by
    rw [hB2]
  have tr_ante : ∀ x ∈ (normalizeBehavior parsed fb).antecedents, trim x = x ∧ x ≠ [] := by
    rw [pa]
    exact fun x hx => ⟨(mem_uniq hx).1, (mem_uniq hx).2.1⟩
  have tr_cons : ∀ x ∈ (normalizeBehavior parsed fb).consequences, trim x = x ∧ x ≠ [] := by
    rw [pc]
    exact fun x hx => ⟨(mem_uniq hx).1, (mem_uniq hx).2.1⟩
  have tr_as : ∀ x ∈ (normalizeBehavior parsed fb).antecedent_strategies,
      trim x = x ∧ x ≠ [] := by
    rw [pas]
    exact fun x hx => ⟨(mem_uniq hx).1, (mem_uniq hx).2.1⟩
  have tr_cs : ∀ x ∈ (normalizeBehavior parsed fb).consequence_strategies,
      trim x = x ∧ x ≠ [] := by
    rw [pcs]
    exact fun x hx => ⟨(mem_uniq hx).1, (mem_uniq hx).2.1⟩
  have tr_sugg : ∀ x ∈ (normalizeBehavior parsed fb).suggestions, trim x = x ∧ x ≠ [] := by
    rw [ps]
    exact fun x hx => ⟨(mem_uniq hx).1, (mem_uniq hx).2.1⟩
  have tr_cust : ∀ x ∈ (normalizeBehavior parsed fb).customizations, trim x = x ∧ x ≠ [] := by
    rw [pcu]
    exact fun x hx => ⟨(mem_uniq hx).1, (mem_uniq hx).2.1⟩
  have e_ante : behaviorPrimaryAntecedents (behaviorPlanToJSON (normalizeBehavior parsed fb))
      = (normalizeBehavior parsed fb).antecedents := by
    unfold behaviorPrimaryAntecedents
    rw [L3, L11, L12, L13]
    exact toArrayStrings_map_str tr_ante
  have e_cons : behaviorPrimaryConsequences (behaviorPlanToJSON (normalizeBehavior parsed fb))
      = (normalizeBehavior parsed fb).consequences := by
    unfold behaviorPrimaryConsequences
    rw [L4, L14, L15, L16]
    exact toArrayStrings_map_str tr_cons
  have e_as : behaviorPrimaryAntStrategies (behaviorPlanToJSON (normalizeBehavior parsed fb))
      = (normalizeBehavior parsed fb).antecedent_strategies := by
    unfold behaviorPrimaryAntStrategies
    rw [L5, L17, L18, L19, L20]
    exact toArrayStrings_map_str tr_as
  have e_cs : behaviorPrimaryConStrategies (behaviorPlanToJSON (normalizeBehavior parsed fb))
      = (normalizeBehavior parsed fb).consequence_strategies := by
    unfold behaviorPrimaryConStrategies
    rw [L6, L21, L22, L23, L24]
    exact toArrayStrings_map_str tr_cs
  have e_sugg : behaviorSuggestions0 (behaviorPlanToJSON (normalizeBehavior parsed fb))
      = (normalizeBehavior parsed fb).suggestions := by
    unfold behaviorSuggestions0
    rw [L7, L25, L26]
    exact toArrayStrings_map_str tr_sugg
  have e_cust : behaviorCustomizations0 (behaviorPlanToJSON (normalizeBehavior parsed fb))
      = (normalizeBehavior parsed fb).customizations := by
    unfold behaviorCustomizations0
    rw [L8, L27, L28]
    exact toArrayStrings_map_str tr_cust
  refine ⟨?_, ?_, ?_, ?_, ?_, ?_⟩
  · -- antecedents
    rw [pa2]
    by_cases hA : (normalizeBehavior parsed fb).antecedents = []
    · have h1nil : behaviorAntecedents1 parsed = [] :=
        uniq_eq_nil (elems_behaviorAntecedents1 parsed) (pa.symm.trans hA)
      have hcand : antecedentCandidates parsed = [] := by
        unfold behaviorAntecedents1 at h1nil
        by_cases hp : behaviorPrimaryAntecedents parsed = []
        · rw [if_pos hp] at h1nil
          by_cases hc : antecedentCandidates parsed ≠ []
          · simp only [if_pos hc] at h1nil
            exact absurd h1nil hc
          · simpa using hc
        · rw [if_neg hp] at h1nil
          exact absurd h1nil hp
      have hno : noOccTree antecedentKeywords parsed :=
        (filter_keywords_nil_iff antecedentKeywords_kwOK).1 hcand
      have hnoOut := noOccTree_normalizeBehavior antecedentKeywords_kwOK parsed fb hobj hno
      have hcand2 : antecedentCandidates (behaviorPlanToJSON (normalizeBehavior parsed fb))
          = [] := (filter_keywords_nil_iff antecedentKeywords_kwOK).2 hnoOut
      have hprim2 : behaviorPrimaryAntecedents
          (behaviorPlanToJSON (normalizeBehavior parsed fb)) = [] := by
        rw [e_ante, hA]
      have h1out : behaviorAntecedents1 (behaviorPlanToJSON (normalizeBehavior parsed fb))
          = [] := by
        unfold behaviorAntecedents1
        rw [if_pos hprim2]
        simp [hcand2, hprim2]
      rw [h1out, hA]
      rfl
    · have h1 : behaviorAntecedents1 (behaviorPlanToJSON (normalizeBehavior parsed fb))
          = behaviorPrimaryAntecedents (behaviorPlanToJSON (normalizeBehavior parsed fb)) := by
        unfold behaviorAntecedents1
        rw [if_neg (by rw [e_ante]; exact hA)]
      rw [h1, e_ante, pa]
      exact uniq_idem _
  · -- consequences
    rw [pc2]
    by_cases hC : (normalizeBehavior parsed fb).consequences = []
    · have h2nil : behaviorConsequences2 parsed = [] :=
        uniq_eq_nil (elems_behaviorConsequences2 parsed) (pc.symm.trans hC)
      have h1nil : behaviorConsequences1 parsed = [] := by
        unfold behaviorConsequences2 at h2nil
        by_cases hcond : behaviorConsequences1 parsed = [] ∧
            jsTruthyO (behaviorSummaryVal parsed) = true
        · exact hcond.1
        · rw [if_neg hcond] at h2nil
          exact h2nil
      have hcand : consequenceCandidates parsed = [] := by
        unfold behaviorConsequences1 at h1nil
        by_cases hp : behaviorPrimaryConsequences parsed = []
        · rw [if_pos hp] at h1nil
          by_cases hc : consequenceCandidates parsed ≠ []
          · simp only [if_pos hc] at h1nil
            exact absurd h1nil hc
          · simpa using hc
        · rw [if_neg hp] at h1nil
          exact absurd h1nil hp
      have hno : noOccTree consequenceKeywords parsed :=
        (filter_keywords_nil_iff consequenceKeywords_kwOK).1 hcand
      have hnoOut := noOccTree_normalizeBehavior consequenceKeywords_kwOK parsed fb hobj hno
      have hcand2 : consequenceCandidates (behaviorPlanToJSON (normalizeBehavior parsed fb))
          = [] := (filter_keywords_nil_iff consequenceKeywords_kwOK).2 hnoOut
      have hprim2 : behaviorPrimaryConsequences
          (behaviorPlanToJSON (normalizeBehavior parsed fb)) = [] := by
        rw [e_cons, hC]
      have h1out : behaviorConsequences1 (behaviorPlanToJSON (normalizeBehavior parsed fb))
          = [] := by
        unfold behaviorConsequences1
        rw [if_pos hprim2]
        simp [hcand2, hprim2]
      have hsummaryO : noOccO consequenceKeywords
          (behaviorSummaryVal (behaviorPlanToJSON (normalizeBehavior parsed fb))) :=
        noOccO_jsOr (noOccO_jgetS hnoOut _) (noOccO_jsOr (noOccO_jgetS hnoOut _)
          (noOccO_jsOr (noOccO_jgetS hnoOut _) (noOccO_jsOr (noOccO_jgetS hnoOut _)
            (noOccO_strLit (noOccStr_nil consequenceKeywords_kwOK)))))
      have hscand := summary_candidates_nil hsummaryO
      have h2out : behaviorConsequences2 (behaviorPlanToJSON (normalizeBehavior parsed fb))
          = [] := by
        unfold behaviorConsequences2
        by_cases hcond : behaviorConsequences1
            (behaviorPlanToJSON (normalizeBehavior parsed fb)) = [] ∧
            jsTruthyO (behaviorSummaryVal
              (behaviorPlanToJSON (normalizeBehavior parsed fb))) = true
        · rw [if_pos hcond]
          simp only [hscand]
          simp [h1out]
        · rw [if_neg hcond]
          exact h1out
      rw [h2out, hC]
      rfl
    · have h1 : behaviorConsequences1 (behaviorPlanToJSON (normalizeBehavior parsed fb))
          = behaviorPrimaryConsequences (behaviorPlanToJSON (normalizeBehavior parsed fb)) := by
        unfold behaviorConsequences1
        rw [if_neg (by rw [e_cons]; exact hC)]
      have h2 : behaviorConsequences2 (behaviorPlanToJSON (normalizeBehavior parsed fb))
          = behaviorConsequences1 (behaviorPlanToJSON (normalizeBehavior parsed fb)) := by
        unfold behaviorConsequences2
        rw [if_neg ?_]
        intro hcond
        refine hC ?_
        rw [← e_cons, ← h1]
        exact hcond.1
      rw [h2, h1, e_cons, pc]
      exact uniq_idem _
  · -- antecedent strategies
    rw [pas2]
    by_cases hAS : (normalizeBehavior parsed fb).antecedent_strategies = []
    · have h1nil : behaviorAntStrategies1 parsed = [] :=
        uniq_eq_nil (elems_behaviorAntStrategies1 parsed) (pas.symm.trans hAS)
      have hsugg0nil : behaviorSuggestions0 parsed = [] := by
        unfold behaviorAntStrategies1 at h1nil
        by_cases hp : behaviorPrimaryAntStrategies parsed = []
        · rw [if_pos hp] at h1nil
          by_cases hs : behaviorSuggestions0 parsed ≠ []
          · rw [if_pos hs] at h1nil
            rcases List.take_eq_nil_iff.1 h1nil with h6 | hl
            · exact absurd h6 (by norm_num)
            · exact absurd hl hs
          · simpa using hs
        · rw [if_neg hp] at h1nil
          exact absurd h1nil hp
      have hSnil : (normalizeBehavior parsed fb).suggestions = [] := by
        rw [ps, hsugg0nil]
        rfl
      have hprim2 : behaviorPrimaryAntStrategies
          (behaviorPlanToJSON (normalizeBehavior parsed fb)) = [] := by
        rw [e_as, hAS]
      have h1out : behaviorAntStrategies1 (behaviorPlanToJSON (normalizeBehavior parsed fb))
          = [] := by
        unfold behaviorAntStrategies1
        rw [if_pos hprim2, e_sugg, hSnil]
        simp
      rw [h1out, hAS]
      rfl
    · have h1 : behaviorAntStrategies1 (behaviorPlanToJSON (normalizeBehavior parsed fb))
          = behaviorPrimaryAntStrategies
            (behaviorPlanToJSON (normalizeBehavior parsed fb)) := by
        unfold behaviorAntStrategies1
        rw [if_neg (by rw [e_as]; exact hAS)]
      rw [h1, e_as, pas]
      exact uniq_idem _
  · -- consequence strategies
    rw [pcs2]
    by_cases hCS : (normalizeBehavior parsed fb).consequence_strategies = []
    · have h1nil : behaviorConStrategies1 parsed = [] :=
        uniq_eq_nil (elems_behaviorConStrategies1 parsed) (pcs.symm.trans hCS)
      have hcust0nil : behaviorCustomizations0 parsed = [] := by
        unfold behaviorConStrategies1 at h1nil
        by_cases hp : behaviorPrimaryConStrategies parsed = []
        · rw [if_pos hp] at h1nil
          by_cases hs : behaviorCustomizations0 parsed ≠ []
          · rw [if_pos hs] at h1nil
            rcases List.take_eq_nil_iff.1 h1nil with h6 | hl
            · exact absurd h6 (by norm_num)
            · exact absurd hl hs
          · simpa using hs
        · rw [if_neg hp] at h1nil
          exact absurd h1nil hp
      have hCnil : (normalizeBehavior parsed fb).customizations = [] := by
        rw [pcu, hcust0nil]
        rfl
      have hprim2 : behaviorPrimaryConStrategies
          (behaviorPlanToJSON (normalizeBehavior parsed fb)) = [] := by
        rw [e_cs, hCS]
      have h1out : behaviorConStrategies1 (behaviorPlanToJSON (normalizeBehavior parsed fb))
          = [] := by
        unfold behaviorConStrategies1
        rw [if_pos hprim2, e_cust, hCnil]
        simp
      rw [h1out, hCS]
      rfl
    · have h1 : behaviorConStrategies1 (behaviorPlanToJSON (normalizeBehavior parsed fb))
          = behaviorPrimaryConStrategies
            (behaviorPlanToJSON (normalizeBehavior parsed fb)) := by
        unfold behaviorConStrategies1
        rw [if_neg (by rw [e_cs]; exact hCS)]
      rw [h1, e_cs, pcs]
      exact uniq_idem _
  · -- suggestions
    rw [ps2, e_sugg, ps]
    exact uniq_idem _
  · -- customizations
    rw [pcu2, e_cust, pcu]
    exact uniq_idem _

/-- Witness for C5: the amended theorem applied at the concrete object
input `\x7b"suggestions": [" a ", "a", "b"]\x7d` (an object, so the
hypothesis holds by `rfl`); the second normalization run reproduces the
first run's deduplicated `suggestions`. -/
theorem claim_C5_witness :
    isObjectLike (JSON.obj [("suggestions".data,
      .arr [.str " a ".data, .str "a".data, .str "b".data])]) = true ∧
    (normalizeBehavior (behaviorPlanToJSON (normalizeBehavior (JSON.obj [("suggestions".data,
        .arr [.str " a ".data, .str "a".data, .str "b".data])]) [])) []).suggestions
      = (normalizeBehavior (JSON.obj [("suggestions".data,
        .arr [.str " a ".data, .str "a".data, .str "b".data])]) []).suggestions :=
  ⟨rfl, (claim_C5_amended (JSON.obj [("suggestions".data,
      .arr [.str " a ".data, .str "a".data, .str "b".data])]) [] [] rfl).2.2.2.2.2.1⟩
